import Mathlib

/-!
The scheduling loop and the job runner of go-cronjob.

A shallow embedding of `manager.go`, `cronjob.go` and the two files of `models/`.

Modelling decisions
* `time.Time` is an instant on an integer time line, `time.Duration` an integer, and
  `Time.Add` is addition.  `time.Now()` reads an environment clock `Env.clock`; the
  index of the next reading is kept in the world (`World.ticks`).
* The database behind `gorm.DB` is two tables held as lists of rows.  Every store
  operation (the query of `getJobModel` and each `Save`) consults the environment
  fault oracle `Env.fault` at the index of the operation (`World.ops`); a faulting
  operation leaves the tables untouched and returns the storage error.
* `db.Save` follows gorm: a zero primary key means INSERT with a fresh auto-assigned
  key that is written back into the value; a non-zero key means UPDATE of all columns
  of the row with that key, and an INSERT of the value when no row has the key.
* A Go `error` is its message (`err.Error()` is the identity).
* The `select` of `runCronJob` is resolved by the environment oracle `Env.stop`, asked
  once per wait (`World.waits`).
* `CronJob.Type`, `ScheduleFirstRun` and `DefaultRunInterval` are stable values of the
  job definition; `Run` may answer differently on every invocation and is a function of
  the invocation index (`World.calls`).  A job does not touch the scheduler tables.
* The world carries a trace of observable events, in program order.
-/

namespace time

/-- An instant (`time.Time`), as a point of an integer time line. -/
abbrev Time := Int

/-- A signed span of time (`time.Duration`). -/
abbrev Duration := Int

/-- The method `Time.Add`. -/
def Add (t : Time) (d : Duration) : Time := t + d

end time

namespace sql

/-- The type `sql.NullTime`; the zero value is `⟨0, false⟩`. -/
structure NullTime where
  Time : time.Time
  Valid : Bool
deriving DecidableEq, Repr

/-- The type `sql.NullBool` (field `Bool` of the source is `Bool_`). -/
structure NullBool where
  Bool_ : Bool
  Valid : Bool
deriving DecidableEq, Repr

/-- The type `sql.NullString` (field `String` of the source is `String_`). -/
structure NullString where
  String_ : String
  Valid : Bool
deriving DecidableEq, Repr

end sql

namespace models

/-- The row type `models.CronJob` (field `Type` of the source is `Type_`). -/
structure CronJob where
  ID : Nat
  Type_ : String
  CreatedDate : time.Time
  NextRunDate : sql.NullTime
  DeletedDate : sql.NullTime
deriving DecidableEq, Repr

/-- The row type `models.CronJobRun`.  The association pointer `CronJob` of the source
is never set by the manager and is left out. -/
structure CronJobRun where
  ID : Nat
  CronJobID : Nat
  StartDate : time.Time
  EndDate : sql.NullTime
  Success : sql.NullBool
  Result : sql.NullString
  Error : sql.NullString
  NextRunDate : sql.NullTime
deriving DecidableEq, Repr

end models

namespace cronjob

/-- A Go `error`, identified with its message. -/
abbrev Error := String

/-- The payload `map[string]interface{}`: a list of key and value pairs; the nil map and
the empty map are both `[]`. -/
abbrev Payload := List (String × String)

set_option linter.dupNamespace false in
/-- The struct `Result` of `cronjob.go`. -/
structure Result where
  Result : Payload
  NextRun : Option time.Time
  NeverRunAgain : Bool
deriving DecidableEq, Repr

/-- The interface `CronJob` of `cronjob.go`. -/
structure CronJob where
  Type_ : String
  ScheduleFirstRun : time.Time
  DefaultRunInterval : time.Duration
  Run : Nat → Option Result × Option Error

/-- The two tables behind `gorm.DB`. -/
structure Store where
  cronjobs : List models.CronJob
  runs : List models.CronJobRun
deriving DecidableEq, Repr

/-- Observable events, in program order. -/
inductive Event where
  | findJob (jobType : String)
  | insertJob (row : models.CronJob)
  | updateJob (row : models.CronJob)
  | insertRun (row : models.CronJobRun)
  | updateRun (row : models.CronJobRun)
  | storeError (err : Error)
  | invoke (call : Nat)
  | stopObserved
  | timerFired
deriving DecidableEq, Repr

/-- What the code cannot control: the clock, storage faults, the outcome of each wait
and the JSON encoder. -/
structure Env where
  clock : Nat → time.Time
  fault : Nat → Option Error
  stop : Nat → Bool
  marshal : Payload → Except Error String

/-- The state threaded through the manager. -/
structure World where
  db : Store
  ticks : Nat
  ops : Nat
  calls : Nat
  waits : Nat
  trace : List Event
deriving DecidableEq, Repr

/-- The call `time.Now()`. -/
def now (env : Env) (w : World) : time.Time × World :=
  (env.clock w.ticks, { w with ticks := w.ticks + 1 })

/-- The key an auto-increment column assigns next: above every key in use. -/
def freshID (ids : List Nat) : Nat := ids.foldr max 0 + 1

/-- The call `db.Save(&run)` on the table of runs. -/
def saveRun (env : Env) (run : models.CronJobRun) (w : World) :
    Option Error × models.CronJobRun × World :=
  match env.fault w.ops with
  | some err =>
    (some err, run, { w with ops := w.ops + 1, trace := w.trace ++ [Event.storeError err] })
  | none =>
    if run.ID = 0 then
      let row := { run with ID := freshID (w.db.runs.map (·.ID)) }
      (none, row, { w with
        db := { w.db with runs := w.db.runs ++ [row] },
        ops := w.ops + 1, trace := w.trace ++ [Event.insertRun row] })
    else if run.ID ∈ w.db.runs.map (·.ID) then
      (none, run, { w with
        db := { w.db with runs := w.db.runs.map (fun r => if r.ID = run.ID then run else r) },
        ops := w.ops + 1, trace := w.trace ++ [Event.updateRun run] })
    else
      (none, run, { w with
        db := { w.db with runs := w.db.runs ++ [run] },
        ops := w.ops + 1, trace := w.trace ++ [Event.insertRun run] })

/-- The call `db.Save(dbJob)` on the table of jobs. -/
def saveJob (env : Env) (dbJob : models.CronJob) (w : World) :
    Option Error × models.CronJob × World :=
  match env.fault w.ops with
  | some err =>
    (some err, dbJob, { w with ops := w.ops + 1, trace := w.trace ++ [Event.storeError err] })
  | none =>
    if dbJob.ID = 0 then
      let row := { dbJob with ID := freshID (w.db.cronjobs.map (·.ID)) }
      (none, row, { w with
        db := { w.db with cronjobs := w.db.cronjobs ++ [row] },
        ops := w.ops + 1, trace := w.trace ++ [Event.insertJob row] })
    else if dbJob.ID ∈ w.db.cronjobs.map (·.ID) then
      (none, dbJob, { w with
        db := { w.db with
          cronjobs := w.db.cronjobs.map (fun r => if r.ID = dbJob.ID then dbJob else r) },
        ops := w.ops + 1, trace := w.trace ++ [Event.updateJob dbJob] })
    else
      (none, dbJob, { w with
        db := { w.db with cronjobs := w.db.cronjobs ++ [dbJob] },
        ops := w.ops + 1, trace := w.trace ++ [Event.insertJob dbJob] })

/-- The row `First` picks: the one with the least primary key. -/
def firstByID : List models.CronJob → Option models.CronJob
  | [] => none
  | r :: rs =>
    match firstByID rs with
    | none => some r
    | some a => if a.ID < r.ID then some a else some r

/-- The filter `deleted_date IS NULL AND type = ?`. -/
def isActive (jobType : String) (r : models.CronJob) : Bool :=
  !r.DeletedDate.Valid && r.Type_ == jobType

/-- The function `Manager.getJobModel`: `.ok none` is the record-not-found outcome. -/
def getJobModel (env : Env) (jobType : String) (w : World) :
    Except Error (Option models.CronJob) × World :=
  match env.fault w.ops with
  | some err =>
    (.error err, { w with ops := w.ops + 1, trace := w.trace ++ [Event.storeError err] })
  | none =>
    (.ok (firstByID (w.db.cronjobs.filter (isActive jobType))),
      { w with ops := w.ops + 1, trace := w.trace ++ [Event.findJob jobType] })

/-- The call `job.Run()`. -/
def invoke (job : CronJob) (w : World) : (Option Result × Option Error) × World :=
  (job.Run w.calls, { w with calls := w.calls + 1, trace := w.trace ++ [Event.invoke w.calls] })

/-- Lines 146 to 193 of `executeCronJobOnce`: the run record is filled in from what
`job.Run()` returned. -/
def recordOutcome (env : Env) (job : CronJob) (run : models.CronJobRun)
    (result : Option Result) (err : Option Error) (w : World) : models.CronJobRun × World :=
  -- Update the end date of the job
  let (t1, w) := now env w
  let run := { run with EndDate := ⟨t1, true⟩ }
  let run := { run with Success := ⟨err.isNone, true⟩ }
  -- If there is an error
  let run := match err with
    | some e => { run with Error := ⟨e, true⟩ }
    | none => run
  -- If there is a result map
  let run := match result with
    | some r =>
      if r.Result.length > 0 then
        match env.marshal r.Result with
        | .error _ => run
        | .ok resultJson => { run with Result := ⟨resultJson, true⟩ }
      else run
    | none => run
  -- If there is a next run time
  if (match result with | none => true | some r => !r.NeverRunAgain) then
    -- If a next run time was provided
    match result.bind (·.NextRun) with
    | some t => ({ run with NextRunDate := ⟨t, true⟩ }, w)
    | none =>
      let (t2, w) := now env w
      ({ run with NextRunDate := ⟨time.Add t2 job.DefaultRunInterval, true⟩ }, w)
  else (run, w)

/-- The function `Manager.executeCronJobOnce`.  The pointer argument `dbJob` is returned
with the in-memory changes made to it. -/
def executeCronJobOnce (env : Env) (job : CronJob) (dbJob : models.CronJob) (w : World) :
    Option Error × models.CronJob × World :=
  -- Create a job run for the job
  let (t0, w) := now env w
  let run : models.CronJobRun :=
    { ID := 0, CronJobID := dbJob.ID, StartDate := t0, EndDate := ⟨0, false⟩,
      Success := ⟨false, false⟩, Result := ⟨"", false⟩, Error := ⟨"", false⟩,
      NextRunDate := ⟨0, false⟩ }
  match saveRun env run w with
  | (some err, _, w) => (some err, dbJob, w)
  | (none, run, w) =>
    -- Run the job
    let ((result, err), w) := invoke job w
    let (run, w) := recordOutcome env job run result err w
    -- Save the run in the database
    match saveRun env run w with
    | (some err, _, w) => (some err, dbJob, w)
    | (none, run, w) =>
      -- Update the job in the database
      let dbJob := { dbJob with NextRunDate := run.NextRunDate }
      match saveJob env dbJob w with
      | (some err, dbJob, w) => (some err, dbJob, w)
      | (none, dbJob, w) => (none, dbJob, w)

/-- One pass through the `for` loop of `runCronJob`: `some r` when the function returns
`r` (`none` being the nil error), `none` when the loop goes round again. -/
def loopBody (env : Env) (job : CronJob) (dbJob : models.CronJob) (w : World) :
    Option (Option Error) × models.CronJob × World :=
  -- If there is no next run date
  if !dbJob.NextRunDate.Valid then (some none, dbJob, w)
  else
    -- `time.Until` reads the clock when the select is entered
    let (_, w) := now env w
    if env.stop w.waits then
      -- case <-stopChan
      (some none, dbJob,
        { w with waits := w.waits + 1, trace := w.trace ++ [Event.stopObserved] })
    else
      -- case <-time.After(...)
      let w := { w with waits := w.waits + 1, trace := w.trace ++ [Event.timerFired] }
      match executeCronJobOnce env job dbJob w with
      | (some err, dbJob, w) => (some (some err), dbJob, w)
      | (none, dbJob, w) => (none, dbJob, w)

/-- The `for` loop of `runCronJob`, run for at most `fuel` passes; the first component
is `none` when the passes are used up before the function returns. -/
def loop (env : Env) (job : CronJob) : Nat → models.CronJob → World →
    Option (Option Error) × models.CronJob × World
  | 0, dbJob, w => (none, dbJob, w)
  | fuel + 1, dbJob, w =>
    match loopBody env job dbJob w with
    | (some r, dbJob, w) => (some r, dbJob, w)
    | (none, dbJob, w) => loop env job fuel dbJob w

/-- The part of `runCronJob` before the loop: look the job record up and create it when
there is none.  `.error err` is `return err`. -/
def ensureJob (env : Env) (job : CronJob) (w : World) :
    Except Error models.CronJob × World :=
  -- Find the job model for the cron job type
  match getJobModel env job.Type_ w with
  | (.error err, w) => (.error err, w)
  | (.ok (some dbJob), w) => (.ok dbJob, w)
  | (.ok none, w) =>
    -- If there is not yet an instance in the database, create it
    let (created, w) := now env w
    let dbJob : models.CronJob :=
      { ID := 0, Type_ := job.Type_, CreatedDate := created,
        NextRunDate := ⟨job.ScheduleFirstRun, true⟩, DeletedDate := ⟨0, false⟩ }
    match saveJob env dbJob w with
    | (some err, _, w) => (.error err, w)
    | (none, dbJob, w) => (.ok dbJob, w)

/-- The function `Manager.runCronJob`, its loop bounded by `fuel`. -/
def runCronJob (fuel : Nat) (env : Env) (job : CronJob) (w : World) :
    Option (Option Error) × World :=
  match ensureJob env job w with
  | (.error err, w) => (some (some err), w)
  | (.ok dbJob, w) =>
    match loop env job fuel dbJob w with
    | (r, _, w) => (r, w)

/-- The run record of lines 133 to 136 as the first `Save` stores it: the key is the
fresh one, every outcome column is absent. -/
def startedRun (env : Env) (dbJob : models.CronJob) (w : World) : models.CronJobRun :=
  { ID := freshID (w.db.runs.map (·.ID)), CronJobID := dbJob.ID, StartDate := env.clock w.ticks,
    EndDate := ⟨0, false⟩, Success := ⟨false, false⟩, Result := ⟨"", false⟩,
    Error := ⟨"", false⟩, NextRunDate := ⟨0, false⟩ }

/-- The world once the started run is stored and `job.Run()` has returned. -/
def afterInvoke (env : Env) (dbJob : models.CronJob) (w : World) : World :=
  { db := { w.db with runs := w.db.runs ++ [startedRun env dbJob w] },
    ticks := w.ticks + 1, ops := w.ops + 1, calls := w.calls + 1, waits := w.waits,
    trace := w.trace ++ [Event.insertRun (startedRun env dbJob w), Event.invoke w.calls] }

/-- The run record as `executeCronJobOnce` hands it to the second `Save`. -/
def finishedRun (env : Env) (job : CronJob) (dbJob : models.CronJob) (w : World) :
    models.CronJobRun :=
  (recordOutcome env job (startedRun env dbJob w) (job.Run w.calls).1 (job.Run w.calls).2
    (afterInvoke env dbJob w)).1

/-- The world in which `executeCronJobOnce` reaches the `Save` of the job record. -/
def beforeJobSave (env : Env) (job : CronJob) (dbJob : models.CronJob) (w : World) : World :=
  { db := { w.db with runs := w.db.runs ++ [finishedRun env job dbJob w] },
    ticks := (recordOutcome env job (startedRun env dbJob w) (job.Run w.calls).1
      (job.Run w.calls).2 (afterInvoke env dbJob w)).2.ticks,
    ops := w.ops + 2, calls := w.calls + 1, waits := w.waits,
    trace := w.trace ++ [Event.insertRun (startedRun env dbJob w), Event.invoke w.calls,
      Event.updateRun (finishedRun env job dbJob w)] }

/-- The number of non-deleted job records of a type in the store. -/
def activeCount (s : Store) (jobType : String) : Nat :=
  (s.cronjobs.filter (isActive jobType)).length

/-- The primary-key constraint of the job table: keys are non-zero and pairwise
distinct. -/
def KeysOK (s : Store) : Prop :=
  0 ∉ s.cronjobs.map (fun r => r.ID) ∧ (s.cronjobs.map (fun r => r.ID)).Nodup

instance (s : Store) : Decidable (KeysOK s) :=
  inferInstanceAs (Decidable (_ ∧ _))

/-- The in-memory job record `dbJob` stands for a stored row: its key is non-zero and a
row of the table has that key, the same type and the same deletion mark. -/
def Linked (dbJob : models.CronJob) (s : Store) : Prop :=
  dbJob.ID ≠ 0 ∧ ∃ row ∈ s.cronjobs, row.ID = dbJob.ID ∧ row.Type_ = dbJob.Type_ ∧
    row.DeletedDate = dbJob.DeletedDate

/-- Calls of `runCronJob` made one after another, each with its own bound on the passes
of the loop, its own environment and its own job definition. -/
def runMany : List (Nat × Env × CronJob) → World → World
  | [], w => w
  | (fuel, env, job) :: rest, w => runMany rest (runCronJob fuel env job w).2

/-! Concrete inputs. -/

/-- An environment without storage faults in which every wait ends on the timer; the
clock advances by ten per reading. -/
def quietEnv : Env :=
  { clock := fun n => 10 * (n : Int), fault := fun _ => none, stop := fun _ => false,
    marshal := fun _ => .ok "{}" }

/-- A persisted job record of type `cleanup`, due at instant 0. -/
def cleanupRecord : models.CronJob :=
  { ID := 1, Type_ := "cleanup", CreatedDate := 0, NextRunDate := ⟨0, true⟩,
    DeletedDate := ⟨0, false⟩ }

/-- A world whose store holds `cleanupRecord` and no run. -/
def cleanupWorld : World :=
  { db := { cronjobs := [cleanupRecord], runs := [] }, ticks := 0, ops := 0, calls := 0,
    waits := 0, trace := [] }

/-- A job definition of type `cleanup`, first due at 5, default interval 60, whose `Run`
always returns `outcome`. -/
def cleanupJob (outcome : Option Result × Option Error) : CronJob :=
  { Type_ := "cleanup", ScheduleFirstRun := 5, DefaultRunInterval := 60, Run := fun _ => outcome }

/-- The environment `quietEnv` with the store operation number `k` failing. -/
def faultyEnv (k : Nat) : Env :=
  { quietEnv with fault := fun n => if n = k then some "disk full" else none }

/-- The environment `quietEnv` with the stop signal raised at every wait. -/
def stoppingEnv : Env :=
  { quietEnv with stop := fun _ => true }

/-- The world in which the timer branch of the `select` calls `executeCronJobOnce`. -/
def afterTimer (w : World) : World :=
  { w with ticks := w.ticks + 1, waits := w.waits + 1, trace := w.trace ++ [Event.timerFired] }

/-- The world in which the stop branch of the `select` leaves the loop. -/
def afterStop (w : World) : World :=
  { w with ticks := w.ticks + 1, waits := w.waits + 1, trace := w.trace ++ [Event.stopObserved] }

/-- A world whose store holds only a soft-deleted record of type `cleanup`. -/
def deletedWorld : World :=
  { db := { cronjobs := [{ cleanupRecord with DeletedDate := ⟨3, true⟩ }], runs := [] },
    ticks := 0, ops := 0, calls := 0, waits := 0, trace := [] }

end cronjob

/-! Auxiliary facts. -/

namespace cronjob

theorem le_foldr_max (ids : List Nat) (x : Nat) (hx : x ∈ ids) : x ≤ ids.foldr max 0 := by
  induction ids with
  | nil => cases hx
  | cons a as ih =>
    simp only [List.foldr_cons]
    rcases List.mem_cons.mp hx with h | h
    · subst h; exact le_max_left _ _
    · exact le_trans (ih h) (le_max_right _ _)

theorem lt_freshID (ids : List Nat) (x : Nat) (hx : x ∈ ids) : x < freshID ids :=
  Nat.lt_succ_of_le (le_foldr_max ids x hx)

theorem freshID_ne_zero (ids : List Nat) : freshID ids ≠ 0 := Nat.succ_ne_zero _

theorem freshID_not_mem (ids : List Nat) : freshID ids ∉ ids :=
  fun h => Nat.lt_irrefl _ (lt_freshID ids _ h)

/-- Rewriting the row that holds a key no row holds changes nothing. -/
theorem map_replace_absent {α : Type} (key : α → Nat) (rows : List α) (x : α)
    (h : key x ∉ rows.map key) :
    rows.map (fun r => if key r = key x then x else r) = rows := by
  induction rows with
  | nil => rfl
  | cons a as ih =>
    simp only [List.map_cons, List.mem_cons, not_or] at h
    simp only [List.map_cons, ih h.2]
    rw [if_neg (fun e => h.1 e.symm)]

/-- The record `recordOutcome` returns keeps the identity columns of the one it is given. -/
theorem recordOutcome_ident (env : Env) (job : CronJob) (run : models.CronJobRun)
    (result : Option Result) (err : Option Error) (w : World) :
    (recordOutcome env job run result err w).1.ID = run.ID ∧
    (recordOutcome env job run result err w).1.CronJobID = run.CronJobID ∧
    (recordOutcome env job run result err w).1.StartDate = run.StartDate := by
  unfold recordOutcome now
  cases result <;> cases err <;> simp <;> (repeat (first | split | simp))

/-- The function `recordOutcome` reads the clock and nothing else. -/
theorem recordOutcome_world (env : Env) (job : CronJob) (run : models.CronJobRun)
    (result : Option Result) (err : Option Error) (w : World) :
    (recordOutcome env job run result err w).2.db = w.db ∧
    (recordOutcome env job run result err w).2.ops = w.ops ∧
    (recordOutcome env job run result err w).2.calls = w.calls ∧
    (recordOutcome env job run result err w).2.waits = w.waits ∧
    (recordOutcome env job run result err w).2.trace = w.trace := by
  unfold recordOutcome now
  cases result <;> cases err <;> simp <;> (repeat (first | split | simp))

/-- With the two saves of the run record succeeding, `executeCronJobOnce` comes down to
the save of the job record in the world `beforeJobSave`. -/
theorem executeCronJobOnce_to_jobSave (env : Env) (job : CronJob) (dbJob : models.CronJob)
    (w : World) (h0 : env.fault w.ops = none) (h1 : env.fault (w.ops + 1) = none) :
    executeCronJobOnce env job dbJob w =
      saveJob env { dbJob with NextRunDate := (finishedRun env job dbJob w).NextRunDate }
        (beforeJobSave env job dbJob w) := by
  have hid := (recordOutcome_ident env job (startedRun env dbJob w) (job.Run w.calls).1
    (job.Run w.calls).2 (afterInvoke env dbJob w))
  have hw := (recordOutcome_world env job (startedRun env dbJob w) (job.Run w.calls).1
    (job.Run w.calls).2 (afterInvoke env dbJob w))
  unfold beforeJobSave finishedRun
  unfold executeCronJobOnce
  simp only [now, saveRun, h0, invoke, if_true, List.append_assoc, List.cons_append,
    List.nil_append]
  simp only [startedRun, afterInvoke] at hid hw ⊢
  generalize recordOutcome env job _ _ _ _ = ro at *
  obtain ⟨run1, w1⟩ := ro
  obtain ⟨hid1, -, -⟩ := hid
  obtain ⟨hdb, hops, hcalls, hwaits, htrace⟩ := hw
  simp only at hid1 hdb hops hcalls hwaits htrace
  have hne : run1.ID ≠ 0 := by rw [hid1]; exact freshID_ne_zero _
  have hmem : run1.ID ∈ List.map (fun x => x.ID) w1.db.runs := by
    rw [hdb, hid1]; simp
  have hrep : List.map (fun r => if r.ID = run1.ID then run1 else r) w1.db.runs
      = w.db.runs ++ [run1] := by
    rw [hdb]
    simp only [List.map_append, List.map_cons, List.map_nil, hid1, if_true]
    congr 1
    have := map_replace_absent (fun r : models.CronJobRun => r.ID) w.db.runs run1
      (by simp only [hid1]; exact freshID_not_mem _)
    simp only [hid1] at this
    exact this
  rw [hdb] at hmem hrep
  simp only [hops, h1, if_neg hne, hcalls, hwaits, htrace, hdb,
    List.append_assoc, List.cons_append, List.nil_append]
  rw [if_pos hmem, hrep]
  simp only [Nat.add_assoc, Nat.reduceAdd]
  generalize saveJob env _ _ = r
  rcases r with ⟨_ | _, _, _⟩ <;> rfl

/-- A faulting `Save` of a job record changes neither the value nor the tables. -/
theorem saveJob_fault (env : Env) (d : models.CronJob) (w : World) (e : Error)
    (h : env.fault w.ops = some e) :
    saveJob env d w =
      (some e, d, { w with ops := w.ops + 1, trace := w.trace ++ [Event.storeError e] }) := by
  simp only [saveJob, h]

/-- A `Save` of a job record that does not fault: the value comes back with at most its
key changed, it is the one row under its key, and nothing but the job table moves. -/
theorem saveJob_ok (env : Env) (d : models.CronJob) (w : World) (h : env.fault w.ops = none) :
    (saveJob env d w).1 = none ∧
    (saveJob env d w).2.1.Type_ = d.Type_ ∧
    (saveJob env d w).2.1.CreatedDate = d.CreatedDate ∧
    (saveJob env d w).2.1.NextRunDate = d.NextRunDate ∧
    (saveJob env d w).2.1.DeletedDate = d.DeletedDate ∧
    (saveJob env d w).2.1 ∈ (saveJob env d w).2.2.db.cronjobs ∧
    (∀ x ∈ (saveJob env d w).2.2.db.cronjobs,
      x.ID = (saveJob env d w).2.1.ID → x = (saveJob env d w).2.1) ∧
    (saveJob env d w).2.2.db.runs = w.db.runs ∧
    (saveJob env d w).2.2.ticks = w.ticks ∧
    (saveJob env d w).2.2.ops = w.ops + 1 ∧
    (saveJob env d w).2.2.calls = w.calls ∧
    (saveJob env d w).2.2.waits = w.waits := by
  unfold saveJob
  simp only [h]
  by_cases hz : d.ID = 0
  · rw [if_pos hz]
    refine ⟨rfl, rfl, rfl, rfl, rfl, ?_, ?_, rfl, rfl, rfl, rfl, rfl⟩
    · simp only [List.mem_append, List.mem_singleton, or_true]
    · intro x hx hid
      rcases List.mem_append.mp hx with hx | hx
      · exact absurd (hid ▸ List.mem_map_of_mem (fun r : models.CronJob => r.ID) hx)
          (freshID_not_mem _)
      · exact List.mem_singleton.mp hx
  · rw [if_neg hz]
    by_cases hm : d.ID ∈ List.map (fun r : models.CronJob => r.ID) w.db.cronjobs
    · rw [if_pos hm]
      refine ⟨rfl, rfl, rfl, rfl, rfl, ?_, ?_, rfl, rfl, rfl, rfl, rfl⟩
      · obtain ⟨y, hy, hyd⟩ := List.mem_map.mp hm
        exact List.mem_map.mpr ⟨y, hy, by simp only [hyd, if_true]⟩
      · intro x hx hid
        obtain ⟨y, hy, rfl⟩ := List.mem_map.mp hx
        by_cases hyd : y.ID = d.ID
        · simp only [hyd, if_true]
        · simp only [hyd, if_false] at hid
    · rw [if_neg hm]
      refine ⟨rfl, rfl, rfl, rfl, rfl, ?_, ?_, rfl, rfl, rfl, rfl, rfl⟩
      · simp only [List.mem_append, List.mem_singleton, or_true]
      · intro x hx hid
        rcases List.mem_append.mp hx with hx | hx
        · exact absurd (hid ▸ List.mem_map_of_mem (fun r : models.CronJob => r.ID) hx) hm
        · exact List.mem_singleton.mp hx

/-- What `executeCronJobOnce` leaves behind when none of its three writes faults. -/
theorem executeCronJobOnce_ok (env : Env) (job : CronJob) (dbJob : models.CronJob) (w : World)
    (h0 : env.fault w.ops = none) (h1 : env.fault (w.ops + 1) = none)
    (h2 : env.fault (w.ops + 2) = none) :
    (executeCronJobOnce env job dbJob w).1 = none ∧
    (executeCronJobOnce env job dbJob w).2.1.Type_ = dbJob.Type_ ∧
    (executeCronJobOnce env job dbJob w).2.1.NextRunDate
      = (finishedRun env job dbJob w).NextRunDate ∧
    (executeCronJobOnce env job dbJob w).2.1.DeletedDate = dbJob.DeletedDate ∧
    (executeCronJobOnce env job dbJob w).2.1 ∈ (executeCronJobOnce env job dbJob w).2.2.db.cronjobs ∧
    (∀ x ∈ (executeCronJobOnce env job dbJob w).2.2.db.cronjobs,
      x.ID = (executeCronJobOnce env job dbJob w).2.1.ID →
        x = (executeCronJobOnce env job dbJob w).2.1) ∧
    (executeCronJobOnce env job dbJob w).2.2.db.runs
      = w.db.runs ++ [finishedRun env job dbJob w] ∧
    (executeCronJobOnce env job dbJob w).2.2.ops = w.ops + 3 ∧
    (executeCronJobOnce env job dbJob w).2.2.calls = w.calls + 1 ∧
    (executeCronJobOnce env job dbJob w).2.2.waits = w.waits := by
  rw [executeCronJobOnce_to_jobSave env job dbJob w h0 h1]
  have hs := saveJob_ok env
    { dbJob with NextRunDate := (finishedRun env job dbJob w).NextRunDate }
    (beforeJobSave env job dbJob w) h2
  obtain ⟨a1, a2, -, a4, a5, a6, a7, a8, -, a10, a11, a12⟩ := hs
  exact ⟨a1, a2, a4, a5, a6, a7, a8, a10, a11, a12⟩

/-- The schedule columns `recordOutcome` writes, by the three cases of lines 177 to 193. -/
theorem recordOutcome_nextRun (env : Env) (job : CronJob) (run : models.CronJobRun)
    (result : Option Result) (err : Option Error) (w : World) :
    (recordOutcome env job run result err w).1.NextRunDate =
      match result with
      | none => ⟨time.Add (env.clock (w.ticks + 1)) job.DefaultRunInterval, true⟩
      | some r =>
        if r.NeverRunAgain then run.NextRunDate
        else match r.NextRun with
          | some t => ⟨t, true⟩
          | none => ⟨time.Add (env.clock (w.ticks + 1)) job.DefaultRunInterval, true⟩ := by
  unfold recordOutcome now
  rcases result with _ | ⟨payload, next, never⟩
  · cases err <;> rfl
  · cases never <;> cases next <;> cases err <;> simp <;> (repeat (first | split | simp))

/-- The outcome columns `recordOutcome` writes, lines 146 to 162. -/
theorem recordOutcome_outcome (env : Env) (job : CronJob) (run : models.CronJobRun)
    (result : Option Result) (err : Option Error) (w : World) :
    (recordOutcome env job run result err w).1.EndDate = ⟨env.clock w.ticks, true⟩ ∧
    (recordOutcome env job run result err w).1.Success = ⟨err.isNone, true⟩ ∧
    (recordOutcome env job run result err w).1.Error =
      (match err with
        | some e => ⟨e, true⟩
        | none => run.Error) := by
  unfold recordOutcome now
  rcases result with _ | ⟨payload, next, never⟩
  · cases err <;> simp
  · cases never <;> cases next <;> cases err <;> simp <;> (repeat (first | split | simp))

/-- A job record without a next run date ends the loop at once, the world untouched. -/
theorem loop_absent (env : Env) (job : CronJob) (fuel : Nat) (dbJob : models.CronJob)
    (w : World) (h : dbJob.NextRunDate.Valid = false) :
    loop env job (fuel + 1) dbJob w = (some none, dbJob, w) := by
  simp only [loop, loopBody, h, Bool.not_false, if_true]

/-- When the insert of the run record faults, `executeCronJobOnce` returns that error
having read the clock once and done nothing else. -/
theorem executeCronJobOnce_insert_fault (env : Env) (job : CronJob) (dbJob : models.CronJob)
    (w : World) (e : Error) (h0 : env.fault w.ops = some e) :
    executeCronJobOnce env job dbJob w =
      (some e, dbJob, { w with
        ticks := w.ticks + 1, ops := w.ops + 1, trace := w.trace ++ [Event.storeError e] }) := by
  unfold executeCronJobOnce
  simp only [now, saveRun, h0]

/-- When the update of the run record faults, `executeCronJobOnce` returns that error;
the started run stays as inserted and the job record is untouched, in memory and in the
store. -/
theorem executeCronJobOnce_update_fault (env : Env) (job : CronJob) (dbJob : models.CronJob)
    (w : World) (e : Error) (h0 : env.fault w.ops = none)
    (h1 : env.fault (w.ops + 1) = some e) :
    (executeCronJobOnce env job dbJob w).1 = some e ∧
    (executeCronJobOnce env job dbJob w).2.1 = dbJob ∧
    (executeCronJobOnce env job dbJob w).2.2.db =
      { w.db with runs := w.db.runs ++ [startedRun env dbJob w] } ∧
    (executeCronJobOnce env job dbJob w).2.2.ops = w.ops + 2 ∧
    (executeCronJobOnce env job dbJob w).2.2.calls = w.calls + 1 ∧
    (executeCronJobOnce env job dbJob w).2.2.waits = w.waits ∧
    (executeCronJobOnce env job dbJob w).2.2.trace = w.trace ++
      [Event.insertRun (startedRun env dbJob w), Event.invoke w.calls, Event.storeError e] := by
  have hw := (recordOutcome_world env job (startedRun env dbJob w) (job.Run w.calls).1
    (job.Run w.calls).2 (afterInvoke env dbJob w))
  unfold executeCronJobOnce
  simp only [now, saveRun, h0, invoke, if_true, List.append_assoc, List.cons_append,
    List.nil_append]
  simp only [startedRun, afterInvoke] at hw ⊢
  generalize recordOutcome env job _ _ _ _ = ro at *
  obtain ⟨run1, w1⟩ := ro
  obtain ⟨hdb, hops, hcalls, hwaits, htrace⟩ := hw
  simp only at hdb hops hcalls hwaits htrace
  simp only [hops, h1, hcalls, hwaits, htrace, hdb, List.append_assoc, List.cons_append,
    List.nil_append, Nat.add_assoc, Nat.reduceAdd, and_self]

/-- When only the update of the job record faults, `executeCronJobOnce` returns that
error and the job table is as before. -/
theorem executeCronJobOnce_jobSave_fault (env : Env) (job : CronJob) (dbJob : models.CronJob)
    (w : World) (e : Error) (h0 : env.fault w.ops = none) (h1 : env.fault (w.ops + 1) = none)
    (h2 : env.fault (w.ops + 2) = some e) :
    (executeCronJobOnce env job dbJob w).1 = some e ∧
    (executeCronJobOnce env job dbJob w).2.2.db =
      { w.db with runs := w.db.runs ++ [finishedRun env job dbJob w] } ∧
    (executeCronJobOnce env job dbJob w).2.2.ops = w.ops + 3 ∧
    (executeCronJobOnce env job dbJob w).2.2.calls = w.calls + 1 ∧
    (executeCronJobOnce env job dbJob w).2.1
      = { dbJob with NextRunDate := (finishedRun env job dbJob w).NextRunDate } := by
  rw [executeCronJobOnce_to_jobSave env job dbJob w h0 h1,
    saveJob_fault env _ (beforeJobSave env job dbJob w) e h2]
  exact ⟨rfl, rfl, rfl, rfl, rfl⟩

/-- The save of a record that is in the job table rewrites the row under its key. -/
theorem saveJob_update (env : Env) (d : models.CronJob) (w : World)
    (h : env.fault w.ops = none) (hz : d.ID ≠ 0)
    (hm : d.ID ∈ w.db.cronjobs.map (fun r => r.ID)) :
    saveJob env d w =
      (none, d, { w with
        db := { w.db with cronjobs := w.db.cronjobs.map (fun r => if r.ID = d.ID then d else r) },
        ops := w.ops + 1, trace := w.trace ++ [Event.updateJob d] }) := by
  unfold saveJob
  simp only [h]
  rw [if_neg hz, if_pos hm]

/-- The columns of the run record `executeCronJobOnce` hands to its second `Save`. -/
theorem finishedRun_fields (env : Env) (job : CronJob) (dbJob : models.CronJob) (w : World) :
    (finishedRun env job dbJob w).ID = (startedRun env dbJob w).ID ∧
    (finishedRun env job dbJob w).CronJobID = dbJob.ID ∧
    (finishedRun env job dbJob w).StartDate = env.clock w.ticks ∧
    (finishedRun env job dbJob w).EndDate = ⟨env.clock (w.ticks + 1), true⟩ ∧
    (finishedRun env job dbJob w).Success = ⟨(job.Run w.calls).2.isNone, true⟩ ∧
    (finishedRun env job dbJob w).Error =
      (match (job.Run w.calls).2 with
        | some e => ⟨e, true⟩
        | none => ⟨"", false⟩) ∧
    (finishedRun env job dbJob w).NextRunDate =
      (match (job.Run w.calls).1 with
        | none => ⟨env.clock (w.ticks + 2) + job.DefaultRunInterval, true⟩
        | some r =>
          if r.NeverRunAgain then ⟨0, false⟩
          else match r.NextRun with
            | some t => ⟨t, true⟩
            | none => ⟨env.clock (w.ticks + 2) + job.DefaultRunInterval, true⟩) := by
  have hid := recordOutcome_ident env job (startedRun env dbJob w) (job.Run w.calls).1
    (job.Run w.calls).2 (afterInvoke env dbJob w)
  have hout := recordOutcome_outcome env job (startedRun env dbJob w) (job.Run w.calls).1
    (job.Run w.calls).2 (afterInvoke env dbJob w)
  have hnext := recordOutcome_nextRun env job (startedRun env dbJob w) (job.Run w.calls).1
    (job.Run w.calls).2 (afterInvoke env dbJob w)
  unfold finishedRun
  refine ⟨hid.1, hid.2.1, hid.2.2, hout.1, hout.2.1, hout.2.2, ?_⟩
  rw [hnext]
  rfl

/-- The function `executeCronJobOnce` never touches the count of waits. -/
theorem executeCronJobOnce_waits (env : Env) (job : CronJob) (dbJob : models.CronJob)
    (w : World) : (executeCronJobOnce env job dbJob w).2.2.waits = w.waits := by
  rcases h0 : env.fault w.ops with _ | e0
  · rcases h1 : env.fault (w.ops + 1) with _ | e1
    · rw [executeCronJobOnce_to_jobSave env job dbJob w h0 h1]
      rcases h2 : env.fault (w.ops + 2) with _ | e2
      · exact (saveJob_ok env _ (beforeJobSave env job dbJob w) h2).2.2.2.2.2.2.2.2.2.2.2
      · rw [saveJob_fault env _ (beforeJobSave env job dbJob w) e2 h2]
        rfl
    · exact (executeCronJobOnce_update_fault env job dbJob w e1 h0 h1).2.2.2.2.2.1
  · rw [executeCronJobOnce_insert_fault env job dbJob w e0 h0]

/-- The stop branch of the wait. -/
theorem loopBody_stop (env : Env) (job : CronJob) (dbJob : models.CronJob) (w : World)
    (hv : dbJob.NextRunDate.Valid = true) (hs : env.stop w.waits = true) :
    loopBody env job dbJob w = (some none, dbJob, afterStop w) := by
  simp only [loopBody, hv, now, hs, Bool.not_true, Bool.false_eq_true, if_false, if_true,
    afterStop]

/-- The timer branch of the wait. -/
theorem loopBody_timer (env : Env) (job : CronJob) (dbJob : models.CronJob) (w : World)
    (hv : dbJob.NextRunDate.Valid = true) (hs : env.stop w.waits = false) :
    loopBody env job dbJob w =
      ((executeCronJobOnce env job dbJob (afterTimer w)).1.map some,
        (executeCronJobOnce env job dbJob (afterTimer w)).2.1,
        (executeCronJobOnce env job dbJob (afterTimer w)).2.2) := by
  simp only [loopBody, hv, now, hs, Bool.not_true, Bool.false_eq_true, if_false, afterTimer]
  generalize executeCronJobOnce env job dbJob _ = r
  rcases r with ⟨_ | _, _, _⟩ <;> rfl

/-- A pass of the loop on a job record with a next run date asks the stop oracle once. -/
theorem loopBody_waits (env : Env) (job : CronJob) (dbJob : models.CronJob) (w : World)
    (hv : dbJob.NextRunDate.Valid = true) :
    (loopBody env job dbJob w).2.2.waits = w.waits + 1 := by
  rcases hs : env.stop w.waits with _ | _
  · rw [loopBody_timer env job dbJob w hv hs]
    exact executeCronJobOnce_waits env job dbJob (afterTimer w)
  · rw [loopBody_stop env job dbJob w hv hs]
    rfl

/-- The function `executeCronJobOnce` does not look at the stop oracle. -/
theorem executeCronJobOnce_stop_irrelevant (env : Env) (stop : Nat → Bool) (job : CronJob)
    (dbJob : models.CronJob) (w : World) :
    executeCronJobOnce { env with stop := stop } job dbJob w
      = executeCronJobOnce env job dbJob w := rfl

/-- The whole effect of `executeCronJobOnce` on a stored job record when no write
faults. -/
theorem executeCronJobOnce_persisted (env : Env) (job : CronJob) (dbJob : models.CronJob)
    (w : World) (hz : dbJob.ID ≠ 0) (hm : dbJob.ID ∈ w.db.cronjobs.map (fun r => r.ID))
    (h0 : env.fault w.ops = none) (h1 : env.fault (w.ops + 1) = none)
    (h2 : env.fault (w.ops + 2) = none) :
    (executeCronJobOnce env job dbJob w).1 = none ∧
    (executeCronJobOnce env job dbJob w).2.1
      = { dbJob with NextRunDate := (finishedRun env job dbJob w).NextRunDate } ∧
    (executeCronJobOnce env job dbJob w).2.2.trace = w.trace ++
      [Event.insertRun (startedRun env dbJob w), Event.invoke w.calls,
        Event.updateRun (finishedRun env job dbJob w),
        Event.updateJob { dbJob with NextRunDate := (finishedRun env job dbJob w).NextRunDate }] ∧
    (executeCronJobOnce env job dbJob w).2.2.db.runs
      = w.db.runs ++ [finishedRun env job dbJob w] ∧
    (executeCronJobOnce env job dbJob w).2.2.db.cronjobs
      = w.db.cronjobs.map (fun r => if r.ID = dbJob.ID then
          { dbJob with NextRunDate := (finishedRun env job dbJob w).NextRunDate } else r) := by
  rw [executeCronJobOnce_to_jobSave env job dbJob w h0 h1,
    saveJob_update env { dbJob with NextRunDate := (finishedRun env job dbJob w).NextRunDate }
      (beforeJobSave env job dbJob w) h2 hz hm]
  refine ⟨rfl, rfl, ?_, rfl, rfl⟩
  simp only [beforeJobSave, List.append_assoc, List.cons_append, List.nil_append]

/-- The row `firstByID` returns is one of the rows. -/
theorem firstByID_mem (rows : List models.CronJob) (d : models.CronJob)
    (h : firstByID rows = some d) : d ∈ rows := by
  induction rows generalizing d with
  | nil => cases h
  | cons r rs ih =>
    simp only [firstByID] at h
    rcases hrs : firstByID rs with _ | a
    · simp only [hrs, Option.some.injEq] at h
      exact h ▸ List.mem_cons_self _ _
    · simp only [hrs] at h
      by_cases hlt : a.ID < r.ID
      · simp only [hlt, if_true, Option.some.injEq] at h
        exact List.mem_cons_of_mem _ (ih a (h ▸ hrs) |> fun m => h ▸ m)
      · simp only [hlt, if_false, Option.some.injEq] at h
        exact h ▸ List.mem_cons_self _ _

/-- The function `firstByID` finds nothing only in an empty list. -/
theorem firstByID_none (rows : List models.CronJob) (h : firstByID rows = none) :
    rows = [] := by
  cases rows with
  | nil => rfl
  | cons r rs =>
    simp only [firstByID] at h
    rcases hrs : firstByID rs with _ | a
    · simp only [hrs] at h
      cases h
    · simp only [hrs] at h
      by_cases hlt : a.ID < r.ID
      · simp only [hlt, if_true] at h
        cases h
      · simp only [hlt, if_false] at h
        cases h

/-- A row-wise rewrite that keeps a predicate keeps the number of rows satisfying it. -/
theorem length_filter_map_of_agree {α : Type} (p : α → Bool) (f : α → α) (rows : List α)
    (h : ∀ r ∈ rows, p (f r) = p r) :
    ((rows.map f).filter p).length = (rows.filter p).length := by
  induction rows with
  | nil => rfl
  | cons a as ih =>
    have ha := h a (List.mem_cons_self _ _)
    have ih2 := ih (fun r hr => h r (List.mem_cons_of_mem _ hr))
    simp only [List.map_cons, List.filter_cons, ha]
    cases p a <;> simp [ih2]

/-- The three outcomes of the part of `runCronJob` before the loop: an error with the
store untouched, an active record of the type found and reused with the store
untouched, or no active record of the type and one new row appended. -/
theorem ensureJob_cases (env : Env) (job : CronJob) (w : World) :
    (∃ e w1, ensureJob env job w = (.error e, w1) ∧ w1.db = w.db) ∨
    (∃ d w1, ensureJob env job w = (.ok d, w1) ∧ w1.db = w.db ∧ d ∈ w.db.cronjobs ∧
      isActive job.Type_ d = true) ∨
    (∃ d w1, ensureJob env job w = (.ok d, w1) ∧ activeCount w.db job.Type_ = 0 ∧
      w1.db.cronjobs = w.db.cronjobs ++ [d] ∧ w1.db.runs = w.db.runs ∧
      d.ID = freshID (w.db.cronjobs.map (fun r => r.ID)) ∧ d.Type_ = job.Type_ ∧
      d.DeletedDate.Valid = false) := by
  rcases h0 : env.fault w.ops with _ | e0
  · rcases hf : firstByID (w.db.cronjobs.filter (isActive job.Type_)) with _ | d
    · have hcount : activeCount w.db job.Type_ = 0 := by
        simp only [activeCount, firstByID_none _ hf, List.length_nil]
      rcases h1 : env.fault (w.ops + 1) with _ | e1
      · refine Or.inr (Or.inr ?_)
        simp only [ensureJob, getJobModel, h0, hf, now, saveJob, h1, if_true]
        exact ⟨_, _, rfl, hcount, rfl, rfl, rfl, rfl, rfl⟩
      · refine Or.inl ?_
        simp only [ensureJob, getJobModel, h0, hf, now, saveJob, h1]
        exact ⟨_, _, rfl, rfl⟩
    · refine Or.inr (Or.inl ?_)
      have hmem := firstByID_mem _ d hf
      simp only [ensureJob, getJobModel, h0, hf]
      exact ⟨_, _, rfl, rfl, (List.mem_filter.mp hmem).1, (List.mem_filter.mp hmem).2⟩
  · refine Or.inl ?_
    simp only [ensureJob, getJobModel, h0]
    exact ⟨_, _, rfl, rfl⟩

/-- A step that leaves the job table alone keeps the key constraint, the link of the
in-memory record and every count of active records. -/
theorem preserved_of_same_jobs (s s1 : Store) (d d1 : models.CronJob)
    (hc : s1.cronjobs = s.cronjobs) (hid : d1.ID = d.ID) (hty : d1.Type_ = d.Type_)
    (hdel : d1.DeletedDate = d.DeletedDate) (hk : KeysOK s) (hl : Linked d s) :
    KeysOK s1 ∧ Linked d1 s1 ∧ ∀ t, activeCount s1 t = activeCount s t := by
  unfold KeysOK Linked activeCount at *
  rw [hc, hid, hty, hdel]
  exact ⟨hk, hl, fun _ => rfl⟩

/-- Rewriting the row under the key of the linked record, with its type and deletion
mark kept, keeps the key constraint, the link and every count of active records. -/
theorem preserved_of_update (s s1 : Store) (d d1 : models.CronJob)
    (hc : s1.cronjobs = s.cronjobs.map (fun r => if r.ID = d.ID then d1 else r))
    (hid : d1.ID = d.ID) (hty : d1.Type_ = d.Type_) (hdel : d1.DeletedDate = d.DeletedDate)
    (hk : KeysOK s) (hl : Linked d s) :
    KeysOK s1 ∧ Linked d1 s1 ∧ ∀ t, activeCount s1 t = activeCount s t := by
  obtain ⟨hz, row, hrow, hrid, hrty, hrdel⟩ := hl
  have hids : s1.cronjobs.map (fun r => r.ID) = s.cronjobs.map (fun r => r.ID) := by
    rw [hc, List.map_map]
    apply List.map_congr_left
    intro r _
    by_cases h : r.ID = d.ID
    · simp only [Function.comp, h, if_true, hid]
    · simp only [Function.comp, h, if_false]
  refine ⟨?_, ⟨by rw [hid]; exact hz, d1, ?_, rfl, rfl, rfl⟩, ?_⟩
  · unfold KeysOK at *
    rw [hids]
    exact hk
  · rw [hc]
    exact List.mem_map.mpr ⟨row, hrow, by simp only [hrid, if_true]⟩
  · intro t
    unfold activeCount
    rw [hc]
    apply length_filter_map_of_agree
    intro r hr
    by_cases h : r.ID = d.ID
    · have hrr : r = row := List.inj_on_of_nodup_map hk.2 hr hrow (h.trans hrid.symm)
      subst hrr
      simp only [h, if_true, isActive, hty, hdel, hrty, hrdel]
    · simp only [h, if_false]

/-- The function `executeCronJobOnce` keeps the key constraint, the link of the
in-memory record and every count of active records, whatever faults occur. -/
theorem executeCronJobOnce_preserves (env : Env) (job : CronJob) (dbJob : models.CronJob)
    (w : World) (hk : KeysOK w.db) (hl : Linked dbJob w.db) :
    KeysOK (executeCronJobOnce env job dbJob w).2.2.db ∧
    Linked (executeCronJobOnce env job dbJob w).2.1 (executeCronJobOnce env job dbJob w).2.2.db ∧
    ∀ t, activeCount (executeCronJobOnce env job dbJob w).2.2.db t = activeCount w.db t := by
  rcases h0 : env.fault w.ops with _ | e0
  · rcases h1 : env.fault (w.ops + 1) with _ | e1
    · rcases h2 : env.fault (w.ops + 2) with _ | e2
      · obtain ⟨hz, row, hrow, hrid, -, -⟩ := id hl
        have hm : dbJob.ID ∈ w.db.cronjobs.map (fun r => r.ID) :=
          List.mem_map.mpr ⟨row, hrow, hrid⟩
        obtain ⟨-, p2, -, -, p5⟩ := executeCronJobOnce_persisted env job dbJob w hz hm h0 h1 h2
        rw [p2]
        exact preserved_of_update w.db _ dbJob _ p5 rfl rfl rfl hk hl
      · obtain ⟨-, b2, -, -, b5⟩ := executeCronJobOnce_jobSave_fault env job dbJob w e2 h0 h1 h2
        rw [b5]
        exact preserved_of_same_jobs w.db _ dbJob _ (by rw [b2]) rfl rfl rfl hk hl
    · obtain ⟨-, b2, b3, -, -, -, -⟩ := executeCronJobOnce_update_fault env job dbJob w e1 h0 h1
      rw [b2]
      exact preserved_of_same_jobs w.db _ dbJob _ (by rw [b3]) rfl rfl rfl hk hl
  · rw [executeCronJobOnce_insert_fault env job dbJob w e0 h0]
    exact preserved_of_same_jobs w.db _ dbJob _ rfl rfl rfl rfl hk hl

/-- A pass of the loop keeps the key constraint, the link and the counts. -/
theorem loopBody_preserves (env : Env) (job : CronJob) (dbJob : models.CronJob)
    (w : World) (hk : KeysOK w.db) (hl : Linked dbJob w.db) :
    KeysOK (loopBody env job dbJob w).2.2.db ∧
    Linked (loopBody env job dbJob w).2.1 (loopBody env job dbJob w).2.2.db ∧
    ∀ t, activeCount (loopBody env job dbJob w).2.2.db t = activeCount w.db t := by
  rcases hv : dbJob.NextRunDate.Valid with _ | _
  · have hb : loopBody env job dbJob w = (some none, dbJob, w) := by
      simp only [loopBody, hv, Bool.not_false, if_true]
    rw [hb]
    exact ⟨hk, hl, fun _ => rfl⟩
  · rcases hs : env.stop w.waits with _ | _
    · rw [loopBody_timer env job dbJob w hv hs]
      exact executeCronJobOnce_preserves env job dbJob (afterTimer w) hk hl
    · rw [loopBody_stop env job dbJob w hv hs]
      exact ⟨hk, hl, fun _ => rfl⟩

/-- The loop, stopped after any number of passes, keeps the key constraint and the
counts. -/
theorem loop_preserves (env : Env) (job : CronJob) (fuel : Nat) :
    ∀ (dbJob : models.CronJob) (w : World), KeysOK w.db → Linked dbJob w.db →
      KeysOK (loop env job fuel dbJob w).2.2.db ∧
      ∀ t, activeCount (loop env job fuel dbJob w).2.2.db t = activeCount w.db t := by
  induction fuel with
  | zero =>
    intro dbJob w hk _
    exact ⟨hk, fun _ => rfl⟩
  | succ n ih =>
    intro dbJob w hk hl
    obtain ⟨b1, b2, b3⟩ := loopBody_preserves env job dbJob w hk hl
    simp only [loop]
    rcases hb : loopBody env job dbJob w with ⟨_ | r, d1, w1⟩
    · rw [hb] at b1 b2 b3
      obtain ⟨c1, c2⟩ := ih d1 w1 b1 b2
      exact ⟨c1, fun t => (c2 t).trans (b3 t)⟩
    · rw [hb] at b1 b3
      exact ⟨b1, b3⟩

/-- A call of `runCronJob`, stopped after any number of passes, keeps the key constraint
and never takes the count of active records of a type above one. -/
theorem runCronJob_preserves (fuel : Nat) (env : Env) (job : CronJob) (w : World)
    (t : String) (hk : KeysOK w.db) (hu : activeCount w.db t ≤ 1) :
    KeysOK (runCronJob fuel env job w).2.db ∧
    activeCount (runCronJob fuel env job w).2.db t ≤ 1 := by
  rcases ensureJob_cases env job w with
    ⟨e, w1, he, hdb⟩ | ⟨d, w1, he, hdb, hmem, -⟩ | ⟨d, w1, he, hcount, hjobs, -, hid, hty, hdel⟩
  · simp only [runCronJob, he, hdb]
    exact ⟨hk, hu⟩
  · have hk1 : KeysOK w1.db := by rw [hdb]; exact hk
    have hl1 : Linked d w1.db := by
      rw [hdb]
      refine ⟨?_, d, hmem, rfl, rfl, rfl⟩
      intro hz
      exact hk.1 (List.mem_map.mpr ⟨d, hmem, hz⟩)
    obtain ⟨c1, c2⟩ := loop_preserves env job fuel d w1 hk1 hl1
    simp only [runCronJob, he]
    exact ⟨c1, by rw [c2 t, hdb]; exact hu⟩
  · have hk1 : KeysOK w1.db := by
      unfold KeysOK at *
      rw [hjobs, List.map_append, List.map_cons, List.map_nil, hid]
      refine ⟨?_, ?_⟩
      · intro h0
        rcases List.mem_append.mp h0 with h | h
        · exact hk.1 h
        · exact freshID_ne_zero _ (List.mem_singleton.mp h).symm
      · refine List.Nodup.append hk.2 (List.nodup_singleton _) ?_
        intro x hx hx2
        rw [List.mem_singleton.mp hx2] at hx
        exact freshID_not_mem _ hx
    have hl1 : Linked d w1.db := by
      refine ⟨by rw [hid]; exact freshID_ne_zero _, d, ?_, rfl, rfl, rfl⟩
      rw [hjobs]
      exact List.mem_append_right _ (List.mem_singleton_self _)
    have hu1 : activeCount w1.db t ≤ 1 := by
      unfold activeCount at *
      rw [hjobs, List.filter_append, List.length_append]
      by_cases hact : isActive t d = true
      · have htt : job.Type_ = t := by
          simp only [isActive, Bool.and_eq_true, beq_iff_eq] at hact
          exact hty.symm.trans hact.2
        rw [htt] at hcount
        rw [hcount]
        simp only [List.filter_cons, hact, if_true, List.filter_nil, List.length_cons,
          List.length_nil]
        exact le_refl _
      · simp only [List.filter_cons, hact, if_false, List.filter_nil, List.length_nil,
          Nat.add_zero, Bool.false_eq_true]
        exact hu
    obtain ⟨c1, c2⟩ := loop_preserves env job fuel d w1 hk1 hl1
    simp only [runCronJob, he]
    exact ⟨c1, by rw [c2 t]; exact hu1⟩

/-! The claims. -/

/-- C1: when `Run` returns a result descriptor with `NeverRunAgain = true`, whatever its
other fields and whether or not an error comes with it, and the three store writes
succeed, then `executeCronJobOnce` returns nil, the run record it persisted and the job
record (in memory and as the one row stored under its key) both have `NextRunDate`
absent, and the loop of `runCronJob` resumed from there returns nil at once, in an
unchanged world: no further wait, no further execution.  Seen from the wait whose timer
started the execution, the loop returns nil after that one wait and that one call of
`Run`. -/
theorem neverRunAgain_stops (env : Env) (job : CronJob) (dbJob : models.CronJob) (w : World)
    (res : Result) (err : Option Error)
    (hrun : job.Run w.calls = (some res, err)) (hnever : res.NeverRunAgain = true)
    (h0 : env.fault w.ops = none) (h1 : env.fault (w.ops + 1) = none)
    (h2 : env.fault (w.ops + 2) = none) :
    (executeCronJobOnce env job dbJob w).1 = none ∧
    (∃ run, (executeCronJobOnce env job dbJob w).2.2.db.runs = w.db.runs ++ [run] ∧
      run.NextRunDate.Valid = false) ∧
    (executeCronJobOnce env job dbJob w).2.1.NextRunDate.Valid = false ∧
    (executeCronJobOnce env job dbJob w).2.1 ∈
      (executeCronJobOnce env job dbJob w).2.2.db.cronjobs ∧
    (∀ x ∈ (executeCronJobOnce env job dbJob w).2.2.db.cronjobs,
      x.ID = (executeCronJobOnce env job dbJob w).2.1.ID →
        x = (executeCronJobOnce env job dbJob w).2.1) ∧
    (∀ fuel, loop env job (fuel + 1) (executeCronJobOnce env job dbJob w).2.1
        (executeCronJobOnce env job dbJob w).2.2 =
      (some none, (executeCronJobOnce env job dbJob w).2.1,
        (executeCronJobOnce env job dbJob w).2.2)) ∧
    (∀ w0 fuel, w = afterTimer w0 → dbJob.NextRunDate.Valid = true →
      env.stop w0.waits = false →
      loop env job (fuel + 2) dbJob w0 =
        (some none, (executeCronJobOnce env job dbJob w).2.1,
          (executeCronJobOnce env job dbJob w).2.2) ∧
      (executeCronJobOnce env job dbJob w).2.2.waits = w0.waits + 1 ∧
      (executeCronJobOnce env job dbJob w).2.2.calls = w0.calls + 1) := by
  obtain ⟨a1, -, a3, -, a5, a6, a7, -, a9, a10⟩ :=
    executeCronJobOnce_ok env job dbJob w h0 h1 h2
  have hfin : (finishedRun env job dbJob w).NextRunDate.Valid = false := by
    unfold finishedRun
    rw [recordOutcome_nextRun, hrun]
    simp only [hnever, if_true]
    rfl
  have hjob : (executeCronJobOnce env job dbJob w).2.1.NextRunDate.Valid = false := by
    rw [a3]; exact hfin
  refine ⟨a1, ⟨_, a7, hfin⟩, hjob, a5, a6, fun fuel => loop_absent env job fuel _ _ hjob, ?_⟩
  rintro w0 fuel rfl hv hs
  refine ⟨?_, a10, a9⟩
  have hb : loopBody env job dbJob w0 =
      (none, (executeCronJobOnce env job dbJob (afterTimer w0)).2.1,
        (executeCronJobOnce env job dbJob (afterTimer w0)).2.2) := by
    rw [loopBody_timer env job dbJob w0 hv hs, a1]
    rfl
  rw [loop, hb]
  exact loop_absent env job fuel _ _ hjob

/-- Witness of C1: a job answering `NeverRunAgain` together with an explicit next run and
an error; the timer of the first wait fires. -/
theorem neverRunAgain_stops_witness :
    (cleanupJob (some ⟨[], some 7, true⟩, some "boom")).Run (afterTimer cleanupWorld).calls
      = (some ⟨[], some 7, true⟩, some "boom") ∧
    quietEnv.fault (afterTimer cleanupWorld).ops = none ∧
    (executeCronJobOnce quietEnv (cleanupJob (some ⟨[], some 7, true⟩, some "boom"))
      cleanupRecord (afterTimer cleanupWorld)).2.1.NextRunDate.Valid = false ∧
    (loop quietEnv (cleanupJob (some ⟨[], some 7, true⟩, some "boom")) 2 cleanupRecord
      cleanupWorld).1 = some none :=
  ⟨rfl, rfl,
    (neverRunAgain_stops quietEnv (cleanupJob (some ⟨[], some 7, true⟩, some "boom"))
      cleanupRecord (afterTimer cleanupWorld) ⟨[], some 7, true⟩ (some "boom")
      rfl rfl rfl rfl rfl).2.2.1,
    congrArg Prod.fst
      ((neverRunAgain_stops quietEnv (cleanupJob (some ⟨[], some 7, true⟩, some "boom"))
        cleanupRecord (afterTimer cleanupWorld) ⟨[], some 7, true⟩ (some "boom")
        rfl rfl rfl rfl rfl).2.2.2.2.2.2 cleanupWorld 0 rfl rfl rfl).1⟩

/-- C2, as stated, fails: a result descriptor that carries the explicit next run 7 and
also `NeverRunAgain = true`, all writes succeeding, leaves the job record without a next
run date. -/
theorem explicitNextRun_overridden :
    (cleanupJob (some ⟨[], some 7, true⟩, none)).Run cleanupWorld.calls
      = (some ⟨[], some 7, true⟩, none) ∧
    quietEnv.fault cleanupWorld.ops = none ∧
    quietEnv.fault (cleanupWorld.ops + 1) = none ∧
    quietEnv.fault (cleanupWorld.ops + 2) = none ∧
    (executeCronJobOnce quietEnv (cleanupJob (some ⟨[], some 7, true⟩, none))
      cleanupRecord cleanupWorld).1 = none ∧
    (executeCronJobOnce quietEnv (cleanupJob (some ⟨[], some 7, true⟩, none))
      cleanupRecord cleanupWorld).2.1.NextRunDate ≠ ⟨7, true⟩ ∧
    (executeCronJobOnce quietEnv (cleanupJob (some ⟨[], some 7, true⟩, none))
      cleanupRecord cleanupWorld).2.1.NextRunDate.Valid = false := by
  decide

/-- C2, amended: when `Run` returns a result descriptor with `NeverRunAgain = false` whose
`NextRun` is a timestamp `T` (whatever the payload and the error) and the three store
writes succeed, the job record after `executeCronJobOnce`, in memory and as the one row
stored under its key, has `NextRunDate` present and equal to `T`; so has the run
record. -/
theorem explicitNextRun_kept (env : Env) (job : CronJob) (dbJob : models.CronJob) (w : World)
    (res : Result) (err : Option Error) (T : time.Time)
    (hrun : job.Run w.calls = (some res, err)) (hnext : res.NextRun = some T)
    (hnever : res.NeverRunAgain = false)
    (h0 : env.fault w.ops = none) (h1 : env.fault (w.ops + 1) = none)
    (h2 : env.fault (w.ops + 2) = none) :
    (executeCronJobOnce env job dbJob w).1 = none ∧
    (executeCronJobOnce env job dbJob w).2.1.NextRunDate = ⟨T, true⟩ ∧
    (executeCronJobOnce env job dbJob w).2.1 ∈
      (executeCronJobOnce env job dbJob w).2.2.db.cronjobs ∧
    (∀ x ∈ (executeCronJobOnce env job dbJob w).2.2.db.cronjobs,
      x.ID = (executeCronJobOnce env job dbJob w).2.1.ID →
        x = (executeCronJobOnce env job dbJob w).2.1) ∧
    (∃ run, (executeCronJobOnce env job dbJob w).2.2.db.runs = w.db.runs ++ [run] ∧
      run.NextRunDate = ⟨T, true⟩) := by
  obtain ⟨a1, -, a3, -, a5, a6, a7, -, -, -⟩ := executeCronJobOnce_ok env job dbJob w h0 h1 h2
  have hfin : (finishedRun env job dbJob w).NextRunDate = ⟨T, true⟩ := by
    rw [(finishedRun_fields env job dbJob w).2.2.2.2.2.2, hrun]
    simp only [hnever, hnext, Bool.false_eq_true, if_false]
  exact ⟨a1, a3.trans hfin, a5, a6, _, a7, hfin⟩

/-- Witness of the amended C2: an explicit next run 7 and an error, no `NeverRunAgain`. -/
theorem explicitNextRun_kept_witness :
    (cleanupJob (some ⟨[], some 7, false⟩, some "boom")).Run cleanupWorld.calls
      = (some ⟨[], some 7, false⟩, some "boom") ∧
    quietEnv.fault cleanupWorld.ops = none ∧
    (executeCronJobOnce quietEnv (cleanupJob (some ⟨[], some 7, false⟩, some "boom"))
      cleanupRecord cleanupWorld).2.1.NextRunDate = ⟨7, true⟩ :=
  ⟨rfl, rfl, (explicitNextRun_kept quietEnv (cleanupJob (some ⟨[], some 7, false⟩, some "boom"))
    cleanupRecord cleanupWorld ⟨[], some 7, false⟩ (some "boom") 7 rfl rfl rfl rfl rfl rfl).2.1⟩

/-- C3: when `Run` returns no result descriptor, or one with `NextRun` absent and
`NeverRunAgain = false`, and the three store writes succeed, the run record and the job
record both have `NextRunDate` present and equal to `c + job.DefaultRunInterval()`, where
`c` is the clock reading that follows the one stored as `EndDate` (both are taken after
`Run` has returned; `StartDate` is the reading before them).  With a non-decreasing clock
that value is not earlier than `EndDate + job.DefaultRunInterval()`. -/
theorem defaultInterval_applied (env : Env) (job : CronJob) (dbJob : models.CronJob)
    (w : World) (result : Option Result) (err : Option Error)
    (hrun : job.Run w.calls = (result, err))
    (hres : result = none ∨
      ∃ r, result = some r ∧ r.NextRun = none ∧ r.NeverRunAgain = false)
    (h0 : env.fault w.ops = none) (h1 : env.fault (w.ops + 1) = none)
    (h2 : env.fault (w.ops + 2) = none) :
    (executeCronJobOnce env job dbJob w).1 = none ∧
    (∃ run, (executeCronJobOnce env job dbJob w).2.2.db.runs = w.db.runs ++ [run] ∧
      run.StartDate = env.clock w.ticks ∧
      run.EndDate = ⟨env.clock (w.ticks + 1), true⟩ ∧
      run.NextRunDate = ⟨env.clock (w.ticks + 2) + job.DefaultRunInterval, true⟩ ∧
      ((∀ i j, i ≤ j → env.clock i ≤ env.clock j) →
        run.EndDate.Time + job.DefaultRunInterval ≤ run.NextRunDate.Time)) ∧
    (executeCronJobOnce env job dbJob w).2.1.NextRunDate
      = ⟨env.clock (w.ticks + 2) + job.DefaultRunInterval, true⟩ ∧
    (executeCronJobOnce env job dbJob w).2.1 ∈
      (executeCronJobOnce env job dbJob w).2.2.db.cronjobs ∧
    (∀ x ∈ (executeCronJobOnce env job dbJob w).2.2.db.cronjobs,
      x.ID = (executeCronJobOnce env job dbJob w).2.1.ID →
        x = (executeCronJobOnce env job dbJob w).2.1) := by
  obtain ⟨a1, -, a3, -, a5, a6, a7, -, -, -⟩ := executeCronJobOnce_ok env job dbJob w h0 h1 h2
  obtain ⟨-, -, f3, f4, -, -, f7⟩ := finishedRun_fields env job dbJob w
  have hfin : (finishedRun env job dbJob w).NextRunDate
      = ⟨env.clock (w.ticks + 2) + job.DefaultRunInterval, true⟩ := by
    rw [f7, hrun]
    rcases hres with rfl | ⟨r, rfl, hn, hv⟩
    · rfl
    · simp only [hn, hv, Bool.false_eq_true, if_false]
  refine ⟨a1, ⟨_, a7, f3, f4, hfin, ?_⟩, a3.trans hfin, a5, a6⟩
  intro hmono
  rw [f4, hfin]
  exact Int.add_le_add_right (hmono _ _ (Nat.le_succ _)) _

/-- Witness of C3: `Run` returns `(nil, nil)` under the clock `10 * n`, which is
non-decreasing. -/
theorem defaultInterval_applied_witness :
    (cleanupJob (none, none)).Run cleanupWorld.calls = (none, none) ∧
    quietEnv.fault cleanupWorld.ops = none ∧
    (∀ i j, i ≤ j → quietEnv.clock i ≤ quietEnv.clock j) ∧
    ∃ run, (executeCronJobOnce quietEnv (cleanupJob (none, none)) cleanupRecord
        cleanupWorld).2.2.db.runs = cleanupWorld.db.runs ++ [run] ∧
      run.NextRunDate = ⟨quietEnv.clock 2 + 60, true⟩ ∧
      run.EndDate.Time + 60 ≤ run.NextRunDate.Time :=
  ⟨rfl, rfl,
    fun _ _ h => Int.mul_le_mul_of_nonneg_left (Int.ofNat_le.mpr h) (by decide),
    match (defaultInterval_applied quietEnv (cleanupJob (none, none)) cleanupRecord
      cleanupWorld none none rfl (Or.inl rfl) rfl rfl rfl).2.1 with
    | ⟨run, hruns, _, _, hnext, hmono⟩ =>
      ⟨run, hruns, hnext, hmono
        (fun _ _ h => Int.mul_le_mul_of_nonneg_left (Int.ofNat_le.mpr h) (by decide))⟩⟩

/-- C4: with the three store writes succeeding, the run record persisted after the job
returns has `EndDate` present, `Success` present with value `err == nil`, and `Error`
present exactly when `err` is non-nil, then holding the message of `err`; so a failing
`Run` yields `Success = false` and `Error` populated. -/
theorem outcome_recorded (env : Env) (job : CronJob) (dbJob : models.CronJob) (w : World)
    (result : Option Result) (err : Option Error)
    (hrun : job.Run w.calls = (result, err))
    (h0 : env.fault w.ops = none) (h1 : env.fault (w.ops + 1) = none)
    (h2 : env.fault (w.ops + 2) = none) :
    ∃ run, (executeCronJobOnce env job dbJob w).2.2.db.runs = w.db.runs ++ [run] ∧
      run.EndDate.Valid = true ∧
      run.Success = ⟨err.isNone, true⟩ ∧
      (run.Error.Valid = true ↔ err ≠ none) ∧
      (∀ e, err = some e → run.Error = ⟨e, true⟩ ∧ run.Success = ⟨false, true⟩) := by
  obtain ⟨-, -, -, -, -, -, a7, -, -, -⟩ := executeCronJobOnce_ok env job dbJob w h0 h1 h2
  obtain ⟨-, -, -, f4, f5, f6, -⟩ := finishedRun_fields env job dbJob w
  rw [hrun] at f5 f6
  refine ⟨_, a7, by rw [f4], f5, ?_, ?_⟩
  · rw [f6]
    cases err <;> simp
  · rintro e rfl
    exact ⟨f6, f5⟩

/-- Witness of C4: `Run` fails with the message `boom`. -/
theorem outcome_recorded_witness :
    (cleanupJob (none, some "boom")).Run cleanupWorld.calls = (none, some "boom") ∧
    quietEnv.fault cleanupWorld.ops = none ∧
    ∃ run, (executeCronJobOnce quietEnv (cleanupJob (none, some "boom")) cleanupRecord
        cleanupWorld).2.2.db.runs = cleanupWorld.db.runs ++ [run] ∧
      run.EndDate.Valid = true ∧
      run.Success = ⟨(some "boom" : Option Error).isNone, true⟩ ∧
      (run.Error.Valid = true ↔ (some "boom" : Option Error) ≠ none) ∧
      (∀ e, (some "boom" : Option Error) = some e →
        run.Error = ⟨e, true⟩ ∧ run.Success = ⟨false, true⟩) :=
  ⟨rfl, rfl, outcome_recorded quietEnv (cleanupJob (none, some "boom")) cleanupRecord
    cleanupWorld none (some "boom") rfl rfl rfl rfl⟩

/-- C5: `executeCronJobOnce` returns nil exactly when none of its three store writes
faults, and returns the error `e` exactly when `e` is the fault of the first write that
fails; what `Run` returns and what the encoder answers play no part.  When the insert of
the run record faults, `Run` is not invoked and nothing is written; when the update of
the run record faults, the job record is unchanged in memory and in the store and no
third write is made. -/
theorem storage_errors_only (env : Env) (job : CronJob) (dbJob : models.CronJob) (w : World) :
    ((executeCronJobOnce env job dbJob w).1 = none ↔
      (env.fault w.ops = none ∧ env.fault (w.ops + 1) = none ∧ env.fault (w.ops + 2) = none)) ∧
    (∀ e, (executeCronJobOnce env job dbJob w).1 = some e ↔
      (env.fault w.ops = some e ∨
        (env.fault w.ops = none ∧ env.fault (w.ops + 1) = some e) ∨
        (env.fault w.ops = none ∧ env.fault (w.ops + 1) = none ∧
          env.fault (w.ops + 2) = some e))) ∧
    (∀ e, env.fault w.ops = some e →
      (executeCronJobOnce env job dbJob w).2.2.calls = w.calls ∧
      (executeCronJobOnce env job dbJob w).2.2.db = w.db ∧
      (executeCronJobOnce env job dbJob w).2.1 = dbJob ∧
      (executeCronJobOnce env job dbJob w).2.2.ops = w.ops + 1) ∧
    (∀ e, env.fault w.ops = none → env.fault (w.ops + 1) = some e →
      (executeCronJobOnce env job dbJob w).2.1 = dbJob ∧
      (executeCronJobOnce env job dbJob w).2.2.db.cronjobs = w.db.cronjobs ∧
      (executeCronJobOnce env job dbJob w).2.2.ops = w.ops + 2) := by
  have key : ∀ r, (executeCronJobOnce env job dbJob w).1 = r ↔
      ((r = none ∧ env.fault w.ops = none ∧ env.fault (w.ops + 1) = none ∧
          env.fault (w.ops + 2) = none) ∨
        (∃ e, r = some e ∧ (env.fault w.ops = some e ∨
          (env.fault w.ops = none ∧ env.fault (w.ops + 1) = some e) ∨
          (env.fault w.ops = none ∧ env.fault (w.ops + 1) = none ∧
            env.fault (w.ops + 2) = some e)))) := by
    intro r
    rcases h0 : env.fault w.ops with _ | e0
    · rcases h1 : env.fault (w.ops + 1) with _ | e1
      · rcases h2 : env.fault (w.ops + 2) with _ | e2
        · rw [(executeCronJobOnce_ok env job dbJob w h0 h1 h2).1]
          cases r <;> simp
        · rw [(executeCronJobOnce_jobSave_fault env job dbJob w e2 h0 h1 h2).1]
          cases r <;> simp [eq_comm]
      · rw [(executeCronJobOnce_update_fault env job dbJob w e1 h0 h1).1]
        cases r <;> simp [eq_comm]
    · rw [executeCronJobOnce_insert_fault env job dbJob w e0 h0]
      cases r <;> simp [eq_comm]
  refine ⟨?_, ?_, ?_, ?_⟩
  · rw [key none]
    simp
  · intro e
    rw [key (some e)]
    simp
  · intro e h0
    rw [executeCronJobOnce_insert_fault env job dbJob w e h0]
    exact ⟨rfl, rfl, rfl, rfl⟩
  · intro e h0 h1
    obtain ⟨-, b2, b3, b4, -, -, -⟩ := executeCronJobOnce_update_fault env job dbJob w e h0 h1
    exact ⟨b2, by rw [b3], b4⟩

/-- An instance of C5: with the update of the run record failing, the error returned is
the storage error, although `Run` itself succeeded. -/
theorem storage_errors_only_witness :
    (executeCronJobOnce (faultyEnv 1) (cleanupJob (none, none)) cleanupRecord
      cleanupWorld).1 = some "disk full" :=
  ((storage_errors_only (faultyEnv 1) (cleanupJob (none, none)) cleanupRecord
    cleanupWorld).2.1 "disk full").mpr (Or.inr (Or.inl ⟨rfl, rfl⟩))

/-- C6, as stated, fails: `Run` returns an error together with a result descriptor that
has `NeverRunAgain = true`; all writes succeed, the job record is left without a next run
date, and `runCronJob` returns after that single execution instead of going back to
waiting. -/
theorem failing_run_can_stop :
    (cleanupJob (some ⟨[], none, true⟩, some "boom")).Run cleanupWorld.calls
      = (some ⟨[], none, true⟩, some "boom") ∧
    quietEnv.fault cleanupWorld.ops = none ∧
    quietEnv.fault (cleanupWorld.ops + 1) = none ∧
    quietEnv.fault (cleanupWorld.ops + 2) = none ∧
    (executeCronJobOnce quietEnv (cleanupJob (some ⟨[], none, true⟩, some "boom"))
      cleanupRecord cleanupWorld).1 = none ∧
    (executeCronJobOnce quietEnv (cleanupJob (some ⟨[], none, true⟩, some "boom"))
      cleanupRecord cleanupWorld).2.1.NextRunDate.Valid = false ∧
    (runCronJob 5 quietEnv (cleanupJob (some ⟨[], none, true⟩, some "boom"))
      cleanupWorld).1 = some none ∧
    (runCronJob 5 quietEnv (cleanupJob (some ⟨[], none, true⟩, some "boom"))
      cleanupWorld).2.calls = 1 ∧
    (runCronJob 5 quietEnv (cleanupJob (some ⟨[], none, true⟩, some "boom"))
      cleanupWorld).2.waits = 1 := by
  decide

/-- C6, amended: when `Run` returns a non-nil error and either no result descriptor or one
with `NeverRunAgain = false`, and the three store writes succeed, `executeCronJobOnce`
returns nil and the job record, in memory and as the one row stored under its key, has
`NextRunDate` present: the explicit next run if the descriptor carries one, otherwise the
clock reading plus `job.DefaultRunInterval()`.  The pass of the loop that made the
execution does not return, and the next pass waits again. -/
theorem failing_run_continues (env : Env) (job : CronJob) (dbJob : models.CronJob) (w : World)
    (result : Option Result) (e : Error)
    (hrun : job.Run w.calls = (result, some e))
    (hnever : ∀ r, result = some r → r.NeverRunAgain = false)
    (h0 : env.fault w.ops = none) (h1 : env.fault (w.ops + 1) = none)
    (h2 : env.fault (w.ops + 2) = none) :
    (executeCronJobOnce env job dbJob w).1 = none ∧
    (executeCronJobOnce env job dbJob w).2.1.NextRunDate =
      (match result.bind (fun r => r.NextRun) with
        | some T => ⟨T, true⟩
        | none => ⟨env.clock (w.ticks + 2) + job.DefaultRunInterval, true⟩) ∧
    (executeCronJobOnce env job dbJob w).2.1.NextRunDate.Valid = true ∧
    (executeCronJobOnce env job dbJob w).2.1 ∈
      (executeCronJobOnce env job dbJob w).2.2.db.cronjobs ∧
    (∀ x ∈ (executeCronJobOnce env job dbJob w).2.2.db.cronjobs,
      x.ID = (executeCronJobOnce env job dbJob w).2.1.ID →
        x = (executeCronJobOnce env job dbJob w).2.1) ∧
    (∀ w0, w = afterTimer w0 → dbJob.NextRunDate.Valid = true → env.stop w0.waits = false →
      loopBody env job dbJob w0 =
        (none, (executeCronJobOnce env job dbJob w).2.1,
          (executeCronJobOnce env job dbJob w).2.2)) ∧
    (loopBody env job (executeCronJobOnce env job dbJob w).2.1
      (executeCronJobOnce env job dbJob w).2.2).2.2.waits =
        (executeCronJobOnce env job dbJob w).2.2.waits + 1 := by
  obtain ⟨a1, -, a3, -, a5, a6, -, -, -, -⟩ := executeCronJobOnce_ok env job dbJob w h0 h1 h2
  have hfin : (finishedRun env job dbJob w).NextRunDate =
      (match result.bind (fun r => r.NextRun) with
        | some T => ⟨T, true⟩
        | none => ⟨env.clock (w.ticks + 2) + job.DefaultRunInterval, true⟩) := by
    rw [(finishedRun_fields env job dbJob w).2.2.2.2.2.2, hrun]
    rcases result with _ | r
    · rfl
    · simp only [hnever r rfl, Bool.false_eq_true, if_false, Option.bind]
  have hvalid : (executeCronJobOnce env job dbJob w).2.1.NextRunDate.Valid = true := by
    rw [a3, hfin]
    cases result.bind (fun r => r.NextRun) <;> rfl
  refine ⟨a1, a3.trans hfin, hvalid, a5, a6, ?_, loopBody_waits env job _ _ hvalid⟩
  rintro w0 rfl hv hs
  rw [loopBody_timer env job dbJob w0 hv hs, a1]
  rfl

/-- Witness of the amended C6: `Run` fails and returns no result descriptor; the pass of
the loop that ran it goes round again. -/
theorem failing_run_continues_witness :
    (cleanupJob (none, some "boom")).Run (afterTimer cleanupWorld).calls
      = (none, some "boom") ∧
    quietEnv.fault (afterTimer cleanupWorld).ops = none ∧
    (executeCronJobOnce quietEnv (cleanupJob (none, some "boom")) cleanupRecord
      (afterTimer cleanupWorld)).2.1.NextRunDate.Valid = true ∧
    (loopBody quietEnv (cleanupJob (none, some "boom")) cleanupRecord cleanupWorld).1
      = none :=
  ⟨rfl, rfl,
    (failing_run_continues quietEnv (cleanupJob (none, some "boom")) cleanupRecord
      (afterTimer cleanupWorld) none "boom" rfl (fun _ h => nomatch h) rfl rfl rfl).2.2.1,
    congrArg Prod.fst
      ((failing_run_continues quietEnv (cleanupJob (none, some "boom")) cleanupRecord
        (afterTimer cleanupWorld) none "boom" rfl (fun _ h => nomatch h)
        rfl rfl rfl).2.2.2.2.2.1 cleanupWorld rfl rfl rfl)⟩

/-- C7: when the store holds no non-deleted job record of the type of the job and the
lookup and the insert do not fault, `runCronJob` creates and saves a record `row` with
`Type = job.Type()` and `NextRunDate` present and equal to `job.ScheduleFirstRun()`; the
save is the first write of the call, no `Run` has been invoked by then, and the loop
(hence every execution of the job) starts from the world that already holds `row`. -/
theorem first_record_scheduled (env : Env) (job : CronJob) (w : World)
    (hnone : ∀ r ∈ w.db.cronjobs, ¬ (r.DeletedDate.Valid = false ∧ r.Type_ = job.Type_))
    (h0 : env.fault w.ops = none) (h1 : env.fault (w.ops + 1) = none) :
    ∃ row w1, ensureJob env job w = (.ok row, w1) ∧
      row.Type_ = job.Type_ ∧
      row.NextRunDate = ⟨job.ScheduleFirstRun, true⟩ ∧
      row.DeletedDate.Valid = false ∧
      w1.db.cronjobs = w.db.cronjobs ++ [row] ∧
      w1.db.runs = w.db.runs ∧
      w1.calls = w.calls ∧
      w1.trace = w.trace ++ [Event.findJob job.Type_, Event.insertJob row] ∧
      ∀ fuel, runCronJob fuel env job w =
        ((loop env job fuel row w1).1, (loop env job fuel row w1).2.2) := by
  have hfilter : w.db.cronjobs.filter (isActive job.Type_) = [] := by
    rw [List.filter_eq_nil_iff]
    intro r hr hact
    simp only [isActive, Bool.and_eq_true, Bool.not_eq_true', beq_iff_eq] at hact
    exact hnone r hr hact
  simp only [runCronJob, ensureJob, getJobModel, h0, hfilter, firstByID, now, saveJob, h1,
    if_true, List.append_assoc, List.cons_append, List.nil_append, Nat.add_assoc,
    Nat.reduceAdd]
  exact ⟨_, _, rfl, rfl, rfl, rfl, rfl, rfl, rfl, rfl, fun _ => rfl⟩

/-- Witness of C7: the store holds only a soft-deleted record of the type. -/
theorem first_record_scheduled_witness :
    (∀ r ∈ deletedWorld.db.cronjobs,
      ¬ (r.DeletedDate.Valid = false ∧ r.Type_ = (cleanupJob (none, none)).Type_)) ∧
    quietEnv.fault deletedWorld.ops = none ∧
    ∃ row w1, ensureJob quietEnv (cleanupJob (none, none)) deletedWorld = (.ok row, w1) ∧
      row.Type_ = (cleanupJob (none, none)).Type_ ∧
      row.NextRunDate = ⟨(cleanupJob (none, none)).ScheduleFirstRun, true⟩ ∧
      row.DeletedDate.Valid = false ∧
      w1.db.cronjobs = deletedWorld.db.cronjobs ++ [row] ∧
      w1.db.runs = deletedWorld.db.runs ∧
      w1.calls = deletedWorld.calls ∧
      w1.trace = deletedWorld.trace ++
        [Event.findJob (cleanupJob (none, none)).Type_, Event.insertJob row] ∧
      ∀ fuel, runCronJob fuel quietEnv (cleanupJob (none, none)) deletedWorld =
        ((loop quietEnv (cleanupJob (none, none)) fuel row w1).1,
          (loop quietEnv (cleanupJob (none, none)) fuel row w1).2.2) :=
  ⟨by decide, rfl,
    first_record_scheduled quietEnv (cleanupJob (none, none)) deletedWorld (by decide) rfl rfl⟩

/-- C9, as stated for every call, fails: when the update of the run record faults, the
call has inserted a run record and invoked `Run`, but that record is never updated (its
outcome columns stay absent) and the job record is not written. -/
theorem effects_cut_short_by_fault :
    (executeCronJobOnce (faultyEnv 1) (cleanupJob (none, none)) cleanupRecord
      cleanupWorld).1 = some "disk full" ∧
    (executeCronJobOnce (faultyEnv 1) (cleanupJob (none, none)) cleanupRecord
      cleanupWorld).2.2.trace =
        [Event.insertRun (startedRun (faultyEnv 1) cleanupRecord cleanupWorld),
          Event.invoke 0, Event.storeError "disk full"] ∧
    (executeCronJobOnce (faultyEnv 1) (cleanupJob (none, none)) cleanupRecord
      cleanupWorld).2.2.db.runs = [startedRun (faultyEnv 1) cleanupRecord cleanupWorld] ∧
    (startedRun (faultyEnv 1) cleanupRecord cleanupWorld).EndDate.Valid = false ∧
    (executeCronJobOnce (faultyEnv 1) (cleanupJob (none, none)) cleanupRecord
      cleanupWorld).2.2.db.cronjobs = cleanupWorld.db.cronjobs := by
  decide

/-- C9, amended: for every call of `executeCronJobOnce` on a job record stored under a
non-zero key in which the three store writes succeed, the writes are exactly, in this
order: the insert of a new run record `started` (fresh key, `CronJobID` the key of the job
record, `StartDate` the clock reading, every outcome column absent), made before `Run` is
invoked; one update of that same record to `finished` after `Run` returns; one update of
the job record.  The run table ends as the old rows followed by `finished`, and the job
table differs from the old one only in the row under the key of the job record. -/
theorem effects_of_one_execution (env : Env) (job : CronJob) (dbJob : models.CronJob)
    (w : World) (hz : dbJob.ID ≠ 0) (hm : dbJob.ID ∈ w.db.cronjobs.map (fun r => r.ID))
    (h0 : env.fault w.ops = none) (h1 : env.fault (w.ops + 1) = none)
    (h2 : env.fault (w.ops + 2) = none) :
    ∃ started finished updated,
      started.ID ≠ 0 ∧ started.ID ∉ w.db.runs.map (fun r => r.ID) ∧
      started.CronJobID = dbJob.ID ∧ started.StartDate = env.clock w.ticks ∧
      started.EndDate.Valid = false ∧ started.Success.Valid = false ∧
      started.Result.Valid = false ∧ started.Error.Valid = false ∧
      started.NextRunDate.Valid = false ∧
      finished.ID = started.ID ∧ finished.CronJobID = started.CronJobID ∧
      finished.StartDate = started.StartDate ∧
      updated = { dbJob with NextRunDate := finished.NextRunDate } ∧
      (executeCronJobOnce env job dbJob w).1 = none ∧
      (executeCronJobOnce env job dbJob w).2.1 = updated ∧
      (executeCronJobOnce env job dbJob w).2.2.trace = w.trace ++
        [Event.insertRun started, Event.invoke w.calls, Event.updateRun finished,
          Event.updateJob updated] ∧
      (executeCronJobOnce env job dbJob w).2.2.db.runs = w.db.runs ++ [finished] ∧
      (executeCronJobOnce env job dbJob w).2.2.db.cronjobs =
        w.db.cronjobs.map (fun r => if r.ID = dbJob.ID then updated else r) ∧
      (executeCronJobOnce env job dbJob w).2.2.ops = w.ops + 3 ∧
      (executeCronJobOnce env job dbJob w).2.2.calls = w.calls + 1 := by
  obtain ⟨p1, p2, p3, p4, p5⟩ := executeCronJobOnce_persisted env job dbJob w hz hm h0 h1 h2
  obtain ⟨-, -, -, -, -, -, -, a8, a9, -⟩ := executeCronJobOnce_ok env job dbJob w h0 h1 h2
  obtain ⟨f1, f2, f3, -, -, -, -⟩ := finishedRun_fields env job dbJob w
  exact ⟨startedRun env dbJob w, finishedRun env job dbJob w, _, freshID_ne_zero _,
    freshID_not_mem _, rfl, rfl, rfl, rfl, rfl, rfl, rfl, f1, f2, f3, rfl, p1, p2, p3, p4,
    p5, a8, a9⟩

/-- Witness of the amended C9: one execution of a job that returns `(nil, nil)`. -/
theorem effects_of_one_execution_witness :
    cleanupRecord.ID ≠ 0 ∧
    cleanupRecord.ID ∈ cleanupWorld.db.cronjobs.map (fun r => r.ID) ∧
    quietEnv.fault cleanupWorld.ops = none ∧
    ∃ started finished updated,
      started.ID ≠ 0 ∧ started.ID ∉ cleanupWorld.db.runs.map (fun r => r.ID) ∧
      started.CronJobID = cleanupRecord.ID ∧ started.StartDate = quietEnv.clock cleanupWorld.ticks ∧
      started.EndDate.Valid = false ∧ started.Success.Valid = false ∧
      started.Result.Valid = false ∧ started.Error.Valid = false ∧
      started.NextRunDate.Valid = false ∧
      finished.ID = started.ID ∧ finished.CronJobID = started.CronJobID ∧
      finished.StartDate = started.StartDate ∧
      updated = { cleanupRecord with NextRunDate := finished.NextRunDate } ∧
      (executeCronJobOnce quietEnv (cleanupJob (none, none)) cleanupRecord cleanupWorld).1
        = none ∧
      (executeCronJobOnce quietEnv (cleanupJob (none, none)) cleanupRecord cleanupWorld).2.1
        = updated ∧
      (executeCronJobOnce quietEnv (cleanupJob (none, none)) cleanupRecord
        cleanupWorld).2.2.trace = cleanupWorld.trace ++
          [Event.insertRun started, Event.invoke cleanupWorld.calls, Event.updateRun finished,
            Event.updateJob updated] ∧
      (executeCronJobOnce quietEnv (cleanupJob (none, none)) cleanupRecord
        cleanupWorld).2.2.db.runs = cleanupWorld.db.runs ++ [finished] ∧
      (executeCronJobOnce quietEnv (cleanupJob (none, none)) cleanupRecord
        cleanupWorld).2.2.db.cronjobs =
          cleanupWorld.db.cronjobs.map
            (fun r => if r.ID = cleanupRecord.ID then updated else r) ∧
      (executeCronJobOnce quietEnv (cleanupJob (none, none)) cleanupRecord
        cleanupWorld).2.2.ops = cleanupWorld.ops + 3 ∧
      (executeCronJobOnce quietEnv (cleanupJob (none, none)) cleanupRecord
        cleanupWorld).2.2.calls = cleanupWorld.calls + 1 :=
  ⟨by decide, by decide, rfl,
    effects_of_one_execution quietEnv (cleanupJob (none, none)) cleanupRecord cleanupWorld
      (by decide) (by decide) rfl rfl rfl⟩

/-- C10: on a job record with a next run date, a pass of the loop of `runCronJob` asks for
the stop signal once, at the wait.  If the stop branch is taken, the pass, the loop and
`runCronJob` return nil, `Run` is not invoked and no store operation is made.  If the
timer branch is taken, the pass does not depend on what the stop signal does afterwards,
and, the three writes succeeding on a stored job record, it performs the insert of the
run record, `Run`, the update of the run record and the update of the job record before
control comes back to the wait. -/
theorem stop_seen_only_at_wait (env : Env) (job : CronJob) (dbJob : models.CronJob)
    (w : World) (hv : dbJob.NextRunDate.Valid = true) :
    (env.stop w.waits = true →
      (loopBody env job dbJob w).1 = some none ∧
      (loopBody env job dbJob w).2.2.db = w.db ∧
      (loopBody env job dbJob w).2.2.calls = w.calls ∧
      (loopBody env job dbJob w).2.2.ops = w.ops ∧
      (loopBody env job dbJob w).2.2.trace = w.trace ++ [Event.stopObserved] ∧
      (∀ fuel, loop env job (fuel + 1) dbJob w = loopBody env job dbJob w) ∧
      (∀ fuel w0, ensureJob env job w0 = (.ok dbJob, w) →
        runCronJob (fuel + 1) env job w0 = (some none, (loopBody env job dbJob w).2.2))) ∧
    (env.stop w.waits = false →
      (∀ stop, stop w.waits = false →
        loopBody { env with stop := stop } job dbJob w = loopBody env job dbJob w) ∧
      (loopBody env job dbJob w).2.2.waits = w.waits + 1 ∧
      (dbJob.ID ≠ 0 → dbJob.ID ∈ w.db.cronjobs.map (fun r => r.ID) →
        env.fault w.ops = none → env.fault (w.ops + 1) = none →
        env.fault (w.ops + 2) = none →
        ∃ started finished updated,
          (loopBody env job dbJob w).1 = none ∧
          (loopBody env job dbJob w).2.1 = updated ∧
          (loopBody env job dbJob w).2.2.trace = w.trace ++
            [Event.timerFired, Event.insertRun started, Event.invoke w.calls,
              Event.updateRun finished, Event.updateJob updated] ∧
          (loopBody env job dbJob w).2.2.db.runs = w.db.runs ++ [finished] ∧
          updated ∈ (loopBody env job dbJob w).2.2.db.cronjobs)) := by
  constructor
  · intro hs
    have hb := loopBody_stop env job dbJob w hv hs
    refine ⟨by rw [hb], by rw [hb]; rfl, by rw [hb]; rfl, by rw [hb]; rfl, by rw [hb]; rfl,
      ?_, ?_⟩
    · intro fuel
      simp only [loop, hb]
    · intro fuel w0 hens
      simp only [runCronJob, hens, loop, hb]
  · intro hs
    refine ⟨?_, loopBody_waits env job dbJob w hv, ?_⟩
    · intro stop hstop
      rw [loopBody_timer env job dbJob w hv hs,
        loopBody_timer { env with stop := stop } job dbJob w hv hstop,
        executeCronJobOnce_stop_irrelevant]
    · intro hz hm h0 h1 h2
      obtain ⟨p1, p2, p3, p4, p5⟩ :=
        executeCronJobOnce_persisted env job dbJob (afterTimer w) hz hm h0 h1 h2
      rw [loopBody_timer env job dbJob w hv hs]
      refine ⟨startedRun env dbJob (afterTimer w), finishedRun env job dbJob (afterTimer w),
        _, by rw [p1]; rfl, p2, ?_, p4, ?_⟩
      · rw [p3]
        simp only [afterTimer, List.append_assoc, List.cons_append, List.nil_append]
      · rw [p5]
        obtain ⟨y, hy, hyd⟩ := List.mem_map.mp hm
        exact List.mem_map.mpr ⟨y, hy, by simp only [afterTimer, hyd, if_true]⟩

/-- Witness of C10: the first wait of a loop on the stored record `cleanupRecord`, once
with the timer firing and once with the stop signal raised. -/
theorem stop_seen_only_at_wait_witness :
    cleanupRecord.NextRunDate.Valid = true ∧
    quietEnv.stop cleanupWorld.waits = false ∧
    stoppingEnv.stop cleanupWorld.waits = true ∧
    (loopBody stoppingEnv (cleanupJob (none, none)) cleanupRecord cleanupWorld).1
      = some none ∧
    (loopBody stoppingEnv (cleanupJob (none, none)) cleanupRecord cleanupWorld).2.2.db
      = cleanupWorld.db ∧
    (loopBody quietEnv (cleanupJob (none, none)) cleanupRecord cleanupWorld).2.2.waits
      = cleanupWorld.waits + 1 ∧
    ∃ started finished updated,
      (loopBody quietEnv (cleanupJob (none, none)) cleanupRecord cleanupWorld).1 = none ∧
      (loopBody quietEnv (cleanupJob (none, none)) cleanupRecord cleanupWorld).2.1
        = updated ∧
      (loopBody quietEnv (cleanupJob (none, none)) cleanupRecord cleanupWorld).2.2.trace
        = cleanupWorld.trace ++
          [Event.timerFired, Event.insertRun started, Event.invoke cleanupWorld.calls,
            Event.updateRun finished, Event.updateJob updated] ∧
      (loopBody quietEnv (cleanupJob (none, none)) cleanupRecord cleanupWorld).2.2.db.runs
        = cleanupWorld.db.runs ++ [finished] ∧
      updated ∈
        (loopBody quietEnv (cleanupJob (none, none)) cleanupRecord cleanupWorld).2.2.db.cronjobs :=
  ⟨rfl, rfl, rfl,
    ((stop_seen_only_at_wait stoppingEnv (cleanupJob (none, none)) cleanupRecord
      cleanupWorld rfl).1 rfl).1,
    ((stop_seen_only_at_wait stoppingEnv (cleanupJob (none, none)) cleanupRecord
      cleanupWorld rfl).1 rfl).2.1,
    ((stop_seen_only_at_wait quietEnv (cleanupJob (none, none)) cleanupRecord
      cleanupWorld rfl).2 rfl).2.1,
    ((stop_seen_only_at_wait quietEnv (cleanupJob (none, none)) cleanupRecord
      cleanupWorld rfl).2 rfl).2.2 (by decide) (by decide) rfl rfl rfl⟩

/-- C8: in a store whose job table satisfies the primary-key constraint and holds at most
one non-deleted job record of a type, any number of calls of `runCronJob` made one after
another (for any jobs, environments and numbers of loop passes, so at every point a call
can have reached) leave at most one non-deleted record of that type and keep the key
constraint.  The part of `runCronJob` before the loop appends a row only when the type of
the job has no non-deleted record and otherwise reuses a stored non-deleted record of that
type without writing; `executeCronJobOnce` on a record linked to a stored row leaves every
count of non-deleted records as it was. -/
theorem one_active_record_per_type (starts : List (Nat × Env × CronJob)) (w : World)
    (jobType : String) (hk : KeysOK w.db) (hu : activeCount w.db jobType ≤ 1) :
    (KeysOK (runMany starts w).db ∧ activeCount (runMany starts w).db jobType ≤ 1) ∧
    (∀ env job,
      (∃ e w1, ensureJob env job w = (.error e, w1) ∧ w1.db = w.db) ∨
      (∃ d w1, ensureJob env job w = (.ok d, w1) ∧ w1.db = w.db ∧ d ∈ w.db.cronjobs ∧
        d.DeletedDate.Valid = false ∧ d.Type_ = job.Type_) ∨
      (∃ d w1, ensureJob env job w = (.ok d, w1) ∧ activeCount w.db job.Type_ = 0 ∧
        w1.db.cronjobs = w.db.cronjobs ++ [d] ∧ d.Type_ = job.Type_ ∧
        d.DeletedDate.Valid = false)) ∧
    (∀ env job dbJob, Linked dbJob w.db →
      ∀ t, activeCount (executeCronJobOnce env job dbJob w).2.2.db t = activeCount w.db t) := by
  refine ⟨?_, ?_, ?_⟩
  · induction starts generalizing w with
    | nil => exact ⟨hk, hu⟩
    | cons a rest ih =>
      obtain ⟨fuel, env, job⟩ := a
      obtain ⟨c1, c2⟩ := runCronJob_preserves fuel env job w jobType hk hu
      exact ih (runCronJob fuel env job w).2 c1 c2
  · intro env job
    rcases ensureJob_cases env job w with
      ⟨e, w1, he, hdb⟩ | ⟨d, w1, he, hdb, hmem, hact⟩ | ⟨d, w1, he, hcount, hjobs, -, -, hty, hdel⟩
    · exact Or.inl ⟨e, w1, he, hdb⟩
    · simp only [isActive, Bool.and_eq_true, Bool.not_eq_true', beq_iff_eq] at hact
      exact Or.inr (Or.inl ⟨d, w1, he, hdb, hmem, hact.1, hact.2⟩)
    · exact Or.inr (Or.inr ⟨d, w1, he, hcount, hjobs, hty, hdel⟩)
  · intro env job dbJob hl
    exact (executeCronJobOnce_preserves env job dbJob w hk hl).2.2

/-- Witness of C8: two calls of `runCronJob` for the type `cleanup`, one after another,
on a store that holds a soft-deleted record of that type. -/
theorem one_active_record_per_type_witness :
    KeysOK deletedWorld.db ∧ activeCount deletedWorld.db "cleanup" ≤ 1 ∧
    activeCount (runMany [(3, quietEnv, cleanupJob (none, none)),
      (2, quietEnv, cleanupJob (none, some "boom"))] deletedWorld).db "cleanup" ≤ 1 :=
  ⟨by decide, by decide,
    (one_active_record_per_type [(3, quietEnv, cleanupJob (none, none)),
      (2, quietEnv, cleanupJob (none, some "boom"))] deletedWorld "cleanup"
      (by decide) (by decide)).1.2⟩

end cronjob
